import Mathlib

/-!
Verification of the schema-resolution and mock-generation core of the `oav`
repository, as a shallow embedding in Lean.

The embedding follows two source files:
- `src/lib/validators/specResolver.ts` (composition flattening, polymorphic
  tree construction and discriminator resolution, oneOf reference rewriting);
- `src/lib/generator/swaggerMocker.ts` (cache-aware, cycle-safe example
  generation).

Swagger schema nodes are modelled by the recursive type `Sch`; JSON-like
runtime values (seeds, generated cache items, `undefined`) by `CVal`.
JavaScript objects are modelled as association lists in key-insertion order,
JavaScript `Set`s of strings as duplicate-free lists, and the unbounded
recursion of the JavaScript functions by an explicit fuel parameter:
`none` means the call did not return normally (fuel exhausted, which models
divergence, or a crash path noted at its site).

Helper modules of the repository that are not part of the two source files
(`exampleCache.ts`, `polymorphicTree.ts`, the generator `util.ts` and
`utils.mergeObjects`) are modelled from the specification, as marked by
`Modelled from the spec:` in their doc comments.
-/

namespace OAV

/-- JSON-like runtime values of the generator, together with the cache items
of `exampleCache.ts`.  `undefV` is JavaScript `undefined`; `leaf`, `trunkArr`
and `trunkObj` are the Cache Item variants (Modelled from the spec: Cache
Item is a tagged Leaf/Trunk value with `isMocked` and required-name
metadata). -/
inductive CVal where
  | undefV
  | nullv
  | str (s : String)
  | int (n : Int)
  | boolv (b : Bool)
  | jarr (elems : List CVal)
  | jobj (fields : List (String × CVal))
  | leaf (value : CVal) (isMocked : Bool) (req : Option (List String))
  | trunkArr (children : List CVal) (isMocked : Bool) (req : Option (List String))
  | trunkObj (children : List (String × CVal)) (isMocked : Bool) (req : Option (List String))

/-- The `additionalProperties` field of a schema: either a boolean or a
nested schema. -/
inductive APField (S : Type) where
  | boolAP (b : Bool)
  | schAP (s : S)

/-- Field collection of a swagger schema node.  A parameter object is the
same shape with `name` and a nested `schema` field (`schemaF`).  Absent
JSON fields are `none`. -/
structure SchData (S : Type) where
  ref : Option String := none
  type : Option String := none
  name : Option String := none
  schemaF : Option S := none
  properties : Option (List (String × S)) := none
  required : Option (List String) := none
  allOf : Option (List S) := none
  discriminator : Option String := none
  xMsDiscriminatorValue : Option String := none
  xMsAzureResource : Bool := false
  enum : Option (List String) := none
  xMsEnumModelAsString : Option Bool := none
  additionalProperties : Option (APField S) := none
  items : Option S := none
  discriminatorMap : Option (List (String × S)) := none

/-- A swagger schema node (recursive knot of `SchData`). -/
inductive Sch where
  | node (data : SchData Sch)

def Sch.data : Sch → SchData Sch
  | .node d => d

def Sch.ref (s : Sch) : Option String := s.data.ref

def Sch.type (s : Sch) : Option String := s.data.type

def Sch.name (s : Sch) : Option String := s.data.name

def Sch.schemaF (s : Sch) : Option Sch := s.data.schemaF

def Sch.properties (s : Sch) : Option (List (String × Sch)) := s.data.properties

def Sch.required (s : Sch) : Option (List String) := s.data.required

def Sch.allOf (s : Sch) : Option (List Sch) := s.data.allOf

def Sch.discriminator (s : Sch) : Option String := s.data.discriminator

def Sch.xMsDiscriminatorValue (s : Sch) : Option String := s.data.xMsDiscriminatorValue

def Sch.xMsAzureResource (s : Sch) : Bool := s.data.xMsAzureResource

def Sch.enum (s : Sch) : Option (List String) := s.data.enum

def Sch.xMsEnumModelAsString (s : Sch) : Option Bool := s.data.xMsEnumModelAsString

def Sch.additionalProperties (s : Sch) : Option (APField Sch) := s.data.additionalProperties

def Sch.items (s : Sch) : Option Sch := s.data.items

def Sch.discriminatorMap (s : Sch) : Option (List (String × Sch)) := s.data.discriminatorMap

def Sch.setRef (s : Sch) (v : Option String) : Sch := .node { s.data with ref := v }

def Sch.setType (s : Sch) (v : Option String) : Sch := .node { s.data with type := v }

def Sch.setProperties (s : Sch) (v : Option (List (String × Sch))) : Sch :=
  .node { s.data with properties := v }

def Sch.setRequired (s : Sch) (v : Option (List String)) : Sch :=
  .node { s.data with required := v }

def Sch.setAllOf (s : Sch) (v : Option (List Sch)) : Sch := .node { s.data with allOf := v }

def Sch.setXMsAzureResource (s : Sch) (v : Bool) : Sch :=
  .node { s.data with xMsAzureResource := v }

def Sch.setEnum (s : Sch) (v : Option (List String)) : Sch := .node { s.data with enum := v }

def Sch.setXMsEnumModelAsString (s : Sch) (v : Option Bool) : Sch :=
  .node { s.data with xMsEnumModelAsString := v }

/-- JavaScript truthiness of an optional string: `undefined` and the empty
string are falsy. -/
def isTruthyStrOpt : Option String → Bool
  | some s => !s.isEmpty
  | none => false

/-- JavaScript truthiness of a `CVal`: `undefined`, `null`, `false`, `0` and
`""` are falsy; every object (including arrays and cache items) is truthy. -/
def CVal.jsTruthy : CVal → Bool
  | .undefV => false
  | .nullv => false
  | .str s => !s.isEmpty
  | .int n => n != 0
  | .boolv b => b
  | _ => true

/-- Object-key update with JavaScript assignment semantics: an existing key
keeps its position and gets the new value, a fresh key is appended. -/
def assocSet {β : Type} (l : List (String × β)) (k : String) (v : β) : List (String × β) :=
  if (l.map Prod.fst).contains k then
    l.map (fun e => if e.1 == k then (k, v) else e)
  else
    l ++ [(k, v)]

/-- Object spread `\x7b...a, ...b\x7d`: keys of `a` (values overridden by `b`
where present) in the order of `a`, then the keys only in `b` in the order
of `b`.  Also serves as the model of `utils.mergeObjects` (Modelled from the
spec: "merge the parent's properties into the child's property map (child
properties win on name collision)"), with `a` the parent and `b` the child. -/
def overrideMerge {β : Type} (a b : List (String × β)) : List (String × β) :=
  a.map (fun e => match List.lookup e.1 b with | some v => (e.1, v) | none => e) ++
    b.filter (fun e => !((a.map Prod.fst).contains e.1))

/-- De-duplication keeping the first occurrence, the model of
`[...new Set([...xs])]`. -/
def dedupList (l : List String) : List String :=
  l.foldl (fun acc s => if acc.contains s then acc else acc ++ [s]) []

/-- Whether `pat` occurs as a prefix of `s` (on character lists). -/
def leadsWith : List Char → List Char → Bool
  | [], _ => true
  | _ :: _, [] => false
  | a :: as, b :: bs => a == b && leadsWith as bs

/-- Whether `pat` occurs as a contiguous substring of `s` (on character
lists); the model of JavaScript `s.indexOf(pat) !== -1`. -/
def hasInfixChars (pat : List Char) : List Char → Bool
  | [] => pat.isEmpty
  | c :: t => leadsWith pat (c :: t) || hasInfixChars pat t

/-- JavaScript `s.indexOf(pat) !== -1` on strings. -/
def strContains (s pat : String) : Bool := hasInfixChars pat.toList s.toList

/-- Whitespace test for the blank-name guards (`!name.trim().length`): a
string is blank when it contains only spaces, tabs or newlines. -/
def blankStr (s : String) : Bool :=
  s.toList.all (fun c => c == Char.ofNat 32 || c == Char.ofNat 9 ||
    c == Char.ofNat 10 || c == Char.ofNat 13)

/-- Splitting a character list at every occurrence of `c` (the separator is
dropped; adjacent separators produce empty segments, as in JavaScript
`split`). -/
def splitCharsAux (c : Char) : List Char → List Char → List (List Char)
  | [], acc => [acc.reverse]
  | x :: xs, acc => if x == c then acc.reverse :: splitCharsAux c xs [] else splitCharsAux c xs (x :: acc)

def splitChars (c : Char) (l : List Char) : List (List Char) := splitCharsAux c l []

/-- The cache key extracted from a `$ref` string: JavaScript
`ref.split("#")[1]`, e.g. `"#/definitions/A"` gives `"/definitions/A"`;
`none` when the ref contains no `#`. -/
def refKey (r : String) : Option String :=
  ((splitChars (Char.ofNat 35) r.toList).get? 1).map (fun cs => String.mk cs)

/-- The JSON-pointer segments of a reference location key, used to state
what "a site inside an allOf list / oneOf array" means structurally. -/
def pointerSegments (k : String) : List String :=
  (splitChars (Char.ofNat 47) k.toList).map (fun cs => String.mk cs)

/-- A site is structurally inside a composition list (or alternative-set
array) when one of its pointer segments is exactly that keyword. -/
def insideSegment (seg : String) (k : String) : Bool :=
  (pointerSegments k).contains seg

/-- The `definitions` section of a spec, in declaration order, keyed by
model name. -/
abbrev Defs := List (String × Sch)

/-- Parses a sliced reference `"/definitions/X"` into the model name `X`
(the fragment of `utils.getObject` exercised by the resolver). -/
def definitionNameOfSlicedRef (sr : String) : Option String :=
  match pointerSegments sr with
  | [e, d, nm] => if e == "" && d == "definitions" then some nm else none
  | _ => none

/-- `specResolver.mergeParentAllOfInChild` (specResolver.ts lines 550-578):
returns the pair (parent, child) after the in-place mutations — the parent
gains an empty property map when it had none, the child receives the merged
property map (child wins on collision, via `utils.mergeObjects`), the
de-duplicated concatenation of the required lists when the parent declares
one, and the parent's x-ms-azure-resource marker when set. -/
def mergeParentAllOfInChild (parent child : Sch) : Sch × Sch :=
  let parent1 := if parent.properties.isSome then parent else parent.setProperties (some [])
  let child1 := if child.properties.isSome then child else child.setProperties (some [])
  let child2 := child1.setProperties
    (some (overrideMerge (parent1.properties.getD []) (child1.properties.getD [])))
  let child3 :=
    match parent1.required with
    | none => child2
    | some pr =>
      let cr := child2.required.getD []
      child2.setRequired (some (dedupList (pr ++ cr)))
  let child4 := if parent1.xMsAzureResource then child3.setXMsAzureResource true else child3
  (parent1, child4)

/-- Marks a key in the `resolvedAllOfModels` map (only key presence is ever
consulted by the source, so the map is modelled as its key list). -/
def markResolved (resolved : List String) (k : String) : List String :=
  if resolved.contains k then resolved else resolved ++ [k]

mutual

/-- `specResolver.resolveAllOfInModel` (specResolver.ts lines 504-539) with
explicit state: the definitions map stands for the spec the source mutates
in place, `resolved` for the keys of `resolvedAllOfModels`.  Returns the
final (possibly merged) model so the caller can write it back to the
location the source mutated through aliasing.  `none` models the crash
paths (undefined `modelRef`, which the source rejects with a thrown error,
an unresolvable reference, on which the source throws a TypeError, or fuel
exhaustion on cyclic composition graphs, on which the source never
returns). -/
def resolveAllOfInModel (fuel : Nat) (defs : Defs) (resolved : List String)
    (model : Sch) (modelRef : Option String) : Option (Defs × List String × Sch) :=
  match fuel with
  | 0 => none
  | n + 1 =>
    match modelRef with
    | none => none
    | some mr0 =>
      let mr := if leadsWith "#".toList mr0.toList then mr0.drop 1 else mr0
      if resolved.contains mr then some (defs, resolved, model)
      else
        match model.allOf with
        | none => some (defs, markResolved resolved mr, model)
        | some items => resolveAllOfItems n defs resolved model items

/-- The `forEach` over the composition list inside `resolveAllOfInModel`. -/
def resolveAllOfItems (fuel : Nat) (defs : Defs) (resolved : List String)
    (model : Sch) (items : List Sch) : Option (Defs × List String × Sch) :=
  match fuel with
  | 0 => none
  | n + 1 =>
    match items with
    | [] => some (defs, resolved, model)
    | item :: rest =>
      match item.ref with
      | none =>
        -- inline composition item: the item itself is the referenced model
        if item.allOf.isSome then
          -- the source recurses with an undefined modelRef and throws
          none
        else
          let pc := mergeParentAllOfInChild item model
          let resolved1 := markResolved resolved "undefined"
          resolveAllOfItems n defs resolved1 pc.2 rest
      | some r =>
        let sr := r.drop 1
        match definitionNameOfSlicedRef sr with
        | none => none
        | some nm =>
          match List.lookup nm defs with
          | none => none
          | some referenced =>
            match
              (if referenced.allOf.isSome then
                match resolveAllOfInModel n defs resolved referenced (some sr) with
                | none => none
                | some (defs1, resolved1, refed1) =>
                  -- the recursion mutated the referenced model in place
                  some (assocSet defs1 nm refed1, resolved1, refed1)
              else some (defs, resolved, referenced)) with
            | none => none
            | some (defs2, resolved2, referenced2) =>
              let pc := mergeParentAllOfInChild referenced2 model
              let defs3 := assocSet defs2 nm pc.1
              let resolved3 := markResolved resolved2 sr
              resolveAllOfItems n defs3 resolved3 pc.2 rest

end

/-- The iteration of `specResolver.resolveAllOfInDefinitions` (specResolver.ts
lines 491-498) over a fixed list of model names, writing each flattened
model back into the definitions map. -/
def resolveAllOfDefsGo (fuel : Nat) : List String → Defs → List String → Option (Defs × List String)
  | [], defs, resolved => some (defs, resolved)
  | nm :: rest, defs, resolved =>
    match List.lookup nm defs with
    | none => resolveAllOfDefsGo fuel rest defs resolved
    | some model =>
      match resolveAllOfInModel fuel defs resolved model (some ("/definitions/" ++ nm)) with
      | none => none
      | some (defs1, resolved1, model1) =>
        resolveAllOfDefsGo fuel rest (assocSet defs1 nm model1) resolved1

/-- `specResolver.resolveAllOfInDefinitions`: flattens the composition list
of every model in the definitions map. -/
def resolveAllOfInDefinitions (fuel : Nat) (defs : Defs) : Option Defs :=
  (resolveAllOfDefsGo fuel (defs.map Prod.fst) defs []).map Prod.fst

/-- A bare string-typed schema, used by the concrete scenarios. -/
def strSch : Sch := .node { type := some "string" }

/-- A bare reference schema. -/
def refSch (r : String) : Sch := .node { ref := some r }

/-- Scenario fixture: parent `P` with `properties : id` and `required : [id]`. -/
def defP : Sch := .node { properties := some [("id", strSch)], required := some ["id"] }

/-- Scenario fixture: child `C` composing `P` and adding `properties : name`,
`required : [name]`. -/
def defC : Sch := .node
  { properties := some [("name", strSch)]
    required := some ["name"]
    allOf := some [refSch "#/definitions/P"] }

/-- Scenario fixture: the definitions map holding `P` and `C`. -/
def scenarioDefsPC : Defs := [("P", defP), ("C", defC)]

/-- A node of the polymorphic inheritance tree.  Modelled from the spec:
"Polymorphic Tree Node: name, discriminator property name, ordered set of
child node names" (`polymorphicTree.ts` is not among the source files). -/
inductive PTree where
  | mk (name : String) (children : List PTree)

def PTree.name : PTree → String
  | .mk n _ => n

def PTree.children : PTree → List PTree
  | .mk _ c => c

/-- Modelled from the spec: `PolymorphicTree.addChildByObject` keeps the
children an ordered set keyed by name — append unless already present. -/
def addChildByObject (cs : List PTree) (c : PTree) : List PTree :=
  if (cs.map PTree.name).contains c.name then cs else cs ++ [c]

/-- The wire-name of a subtype: `definition["x-ms-discriminator-value"] || name`. -/
def wireName (definition : Sch) (nm : String) : String :=
  match definition.xMsDiscriminatorValue with
  | some v => if v.isEmpty then nm else v
  | none => nm

/-- JavaScript `r.substring(r.lastIndexOf("/") + 1)`. -/
def lastPathSegment (r : String) : String :=
  match (splitChars (Char.ofNat 47) r.toList).reverse with
  | last :: _ => String.mk last
  | [] => r

/-- The definition-mutating part of `specResolver.createPolymorphicTree`
(specResolver.ts lines 924-979): forces `type : object`, makes the
discriminator property required, resolves a `$ref` on that property into
an enum, forces `x-ms-enum.modelAsString` to false, defaults the property
type to string, and pins the enum: when the definition itself declares a
discriminator and the property already has an enum, the wire-name is
prepended if absent; otherwise the enum is overwritten with the single
wire-name. -/
def pinDiscriminatorInDefinition (defs : Defs) (nm disc : String) : Defs :=
  match List.lookup nm defs with
  | none => defs
  | some definition0 =>
    match definition0.properties with
    | none => defs
    | some ps =>
      let definition := definition0.setType (some "object")
      match List.lookup disc ps with
      | none => assocSet defs nm definition
      | some d0 =>
        let definition :=
          match definition.required with
          | none => definition.setRequired (some [disc])
          | some req =>
            if req.contains disc then definition
            else definition.setRequired (some (req ++ [disc]))
        let val := wireName definition nm
        let d :=
          if isTruthyStrOpt d0.ref then
            let d1 :=
              if d0.enum.isNone then
                match List.lookup (lastPathSegment (d0.ref.getD "")) defs with
                | some refDefinition => d0.setEnum refDefinition.enum
                | none => d0
              else d0
            d1.setRef none
          else d0
        let d :=
          match d.xMsEnumModelAsString with
          | some _ => d.setXMsEnumModelAsString (some false)
          | none => d
        let d := if isTruthyStrOpt d.type then d else d.setType (some "string")
        let d :=
          if isTruthyStrOpt definition.discriminator && d.enum.isSome then
            match d.enum with
            | some l => if l.contains val then d else d.setEnum (some (val :: l))
            | none => d
          else d.setEnum (some [val])
        assocSet defs nm (definition.setProperties (some (assocSet ps disc d)))

/-- `specResolver.findChildren` (specResolver.ts lines 998-1031): the names
of the definitions whose composition list references the given model. -/
def findChildren (defs : Defs) (nm : String) : List String :=
  (defs.filter (fun e =>
    match e.2.allOf with
    | some items => items.any (fun it => it.ref == some ("#/definitions/" ++ nm))
    | none => false)).map Prod.fst

/-- State threaded through polymorphic tree construction: the definitions
map (mutated by discriminator pinning), the `subTreeMap` memo, and a ghost
trace recording each entry into `createPolymorphicTree` (instrumentation
for the construction-count claims; it influences nothing). -/
structure PTState where
  defs : Defs
  subTreeMap : List (String × PTree)
  trace : List String

mutual

/-- `specResolver.createPolymorphicTree` (specResolver.ts lines 888-989):
pins the discriminator constant on the model, discovers composition
children, recursively builds their subtrees, and only then inserts the
finished node into `subTreeMap`.  The memo map is never consulted here;
`none` models the thrown errors on blank inputs and fuel exhaustion on
cyclic composition graphs, on which the source never returns. -/
def createPolymorphicTree (fuel : Nat) (nm disc : String) (st : PTState) :
    Option (PTree × PTState) :=
  match fuel with
  | 0 => none
  | n + 1 =>
    if blankStr nm || blankStr disc then none
    else
      let st1 : PTState := { st with trace := st.trace ++ [nm] }
      let defs1 := pinDiscriminatorInDefinition st1.defs nm disc
      let children := findChildren defs1 nm
      match createChildTrees n children disc { st1 with defs := defs1 } [] with
      | none => none
      | some (childTrees, st2) =>
        let rootNode := PTree.mk nm childTrees
        some (rootNode, { st2 with subTreeMap := assocSet st2.subTreeMap nm rootNode })
termination_by structural fuel

/-- The loop over discovered children inside `createPolymorphicTree`,
accumulating `rootNode.addChildByObject` insertions in order. -/
def createChildTrees (fuel : Nat) (childNames : List String) (disc : String) (st : PTState)
    (acc : List PTree) : Option (List PTree × PTState) :=
  match fuel with
  | 0 => none
  | n + 1 =>
    match childNames with
    | [] => some (acc, st)
    | c :: rest =>
      match createPolymorphicTree n c disc st with
      | none => none
      | some (ct, st1) => createChildTrees n rest disc st1 (addChildByObject acc ct)
termination_by structural fuel

end

mutual

/-- `specResolver.buildOneOfReferences` (specResolver.ts lines 1041-1050):
the reference to the node itself followed by the references of all its
descendants (the source's `Set` of freshly allocated `$ref` objects never
de-duplicates, so it is a list). -/
def buildOneOfReferences : PTree → List String
  | .mk n cs => ("#/definitions/" ++ n) :: buildRefsList cs

/-- The recursive union over the children inside `buildOneOfReferences`. -/
def buildRefsList : List PTree → List String
  | [] => []
  | t :: ts => buildOneOfReferences t ++ buildRefsList ts

end

mutual

/-- Whether a name occurs as a node of the tree (the root included). -/
def PTree.hasNode : PTree → String → Bool
  | .mk n cs, m => n == m || hasNodeList cs m

def hasNodeList : List PTree → String → Bool
  | [], _ => false
  | t :: ts, m => t.hasNode m || hasNodeList ts m

end

/-- An object at a reference location of the document: its optional `$ref`
and optional `oneOf` array (of reference strings). -/
structure SiteObj where
  ref : Option String := none
  oneOf : Option (List String) := none
deriving DecidableEq

/-- The document restricted to its reference locations, keyed by the JSON
pointer of the object holding the `$ref` (as produced by
`jsonRefs.findRefs`, e.g. `"#/definitions/X/properties/p"`). -/
abbrev RDoc := List (String × SiteObj)

/-- The output of `jsonRefs.findRefs` on the modelled document: every
location carrying a `$ref`, with its target uri. -/
def refsOf (doc : RDoc) : List (String × String) :=
  doc.filterMap (fun p => p.2.ref.map (fun u => (p.1, u)))

/-- One location rewrite inside `updateReferencesWithOneOf`: fetch the
object, delete its `$ref`, set `oneOf` to the references of the node and
its descendants, and write it back. -/
def rewriteLocation (node : PTree) (doc : RDoc) (location : String) : RDoc :=
  match List.lookup location doc with
  | none => doc
  | some obj =>
    assocSet doc location { obj with ref := none, oneOf := some (buildOneOfReferences node) }

/-- The per-node body of `specResolver.updateReferencesWithOneOf`
(specResolver.ts lines 846-874): for a node with children, every reference
entry whose uri is the node's model reference and whose location key does
not contain the substrings `allOf` or `oneOf` is rewritten. -/
def processNode (references : List (String × String)) (doc : RDoc) (node : PTree) : RDoc :=
  if node.children.isEmpty then doc
  else
    let modelReference := "#/definitions/" ++ node.name
    let locations := (references.filter (fun kv =>
      kv.2 == modelReference && !(strContains kv.1 "allOf") && !(strContains kv.1 "oneOf"))).map Prod.fst
    locations.foldl (rewriteLocation node) doc

/-- `specResolver.updateReferencesWithOneOf` (specResolver.ts lines
840-876): processes every node of the accumulated `subTreeMap` against the
reference table computed before any rewriting. -/
def updateReferencesWithOneOf (subTreeMap : List (String × PTree))
    (references : List (String × String)) (doc : RDoc) : RDoc :=
  (subTreeMap.map Prod.snd).foldl (processNode references) doc

/-- Scenario fixture: base `Animal` with discriminator `kind`. -/
def animalDef : Sch := .node
  { discriminator := some "kind", properties := some [("kind", strSch)] }

/-- Scenario fixture: the `kind` property of `Cat`, already carrying an enum. -/
def catKindSch : Sch := .node { type := some "string", enum := some ["Feline"] }

/-- Scenario fixture: subtype `Cat` composing `Animal`, with a pre-existing
enum on its discriminator property and no own `discriminator` field. -/
def catDef : Sch := .node
  { properties := some [("kind", catKindSch)]
    allOf := some [refSch "#/definitions/Animal"] }

/-- Scenario fixture: definitions map for the Animal/Cat tree. -/
def scenarioDefsAnimal : Defs := [("Animal", animalDef), ("Cat", catDef)]

/-- The polymorphic-tree construction run on the Animal/Cat fixture. -/
def animalTreeRun : Option (PTree × PTState) :=
  createPolymorphicTree 10 "Animal" "kind" ⟨scenarioDefsAnimal, [], []⟩

/-- Diamond fixture: `A` carries the discriminator; `B` and `C` compose `A`;
`D` composes both `B` and `C`. -/
def diamondDefs : Defs :=
  [("A", Sch.node { discriminator := some "kd", properties := some [("kd", strSch)] }),
   ("B", Sch.node { allOf := some [refSch "#/definitions/A"] }),
   ("C", Sch.node { allOf := some [refSch "#/definitions/A"] }),
   ("D", Sch.node { allOf := some [refSch "#/definitions/B", refSch "#/definitions/C"] })]

/-- The polymorphic-tree construction run on the diamond fixture. -/
def diamondRun : Option (PTree × PTState) :=
  createPolymorphicTree 10 "A" "kd" ⟨diamondDefs, [], []⟩

/-- The Animal tree with its single child Cat, as handed to the reference
rewriter. -/
def animalTree : PTree := .mk "Animal" [.mk "Cat" []]

/-- An ordinary reference location to `Animal`. -/
def siteNormal : String := "#/paths/pets/get/responses/200/schema"

/-- A reference location that is not inside any composition list or
alternative-set array, but whose pointer happens to contain the substring
`allOf` (a property named `fallOfMan`). -/
def siteOdd : String := "#/definitions/Pet/properties/fallOfMan"

/-- The reference-location document for the rewrite scenario. -/
def c1Doc : RDoc :=
  [(siteNormal, { ref := some "#/definitions/Animal" }),
   (siteOdd, { ref := some "#/definitions/Animal" })]

/-- The subTreeMap for the rewrite scenario. -/
def c1Map : List (String × PTree) := [("Animal", animalTree)]

/-- The outcome of the rewrite scenario. -/
def c1Result : RDoc := updateReferencesWithOneOf c1Map (refsOf c1Doc) c1Doc

/-- The external leaf-value synthesizer (`mocker.ts`, an external
collaborator per the spec) and the key generator `util.randomKey`, injected
as plain functions: `mockPrim` is the two-argument call
`mocker.mock(definitionSpec, objName)`, `mockArr` the three-argument call
with the generated item template. -/
structure ExtMocker where
  mockPrim : Sch → String → CVal
  mockArr : Sch → String → CVal → CVal
  randomKey : String

/-- The read-only environment of a generation run: the resolved schema
nodes reachable by full `$ref` string (the `jsonLoader`), the payload
cache keyed by `refKey`, and the external synthesizer. -/
structure MockEnv where
  defs : List (String × Sch)
  payload : List (String × CVal)
  ext : ExtMocker

/-- The mutable state of a generation run: the mock cache and a counter of
logged warnings (`log.warn` and `console.error` events). -/
structure MState where
  mockCache : List (String × CVal)
  warnings : Nat

/-- Property read `example[key]` on a JavaScript value (absent key or
non-object receiver gives `undefined`; string character indexing is outside
the modelled fragment). -/
def CVal.getField : CVal → String → CVal
  | .jobj fs, k => (List.lookup k fs).getD .undefV
  | _, _ => .undefV

/-- Property write `example[key] = v`.  `none` models the strict-mode
TypeError raised on primitive receivers; array and class-instance receivers
are outside the modelled fragment. -/
def CVal.setField : CVal → String → CVal → Option CVal
  | .jobj fs, k, v => some (.jobj (assocSet fs k v))
  | _, _, _ => none

/-- Element read `example[0]` (non-arrays give `undefined`; string indexing
is outside the modelled fragment). -/
def CVal.getIndex0 : CVal → CVal
  | .jarr (h :: _) => h
  | _ => .undefV

/-- `swaggerMocker.getCache` (swaggerMocker.ts lines 165-174): for a
referenced schema, probe the payload cache first, then the mock cache,
both under `ref.split("#")[1]`, and return the cached item verbatim. -/
def getCache (env : MockEnv) (st : MState) (schema : Sch) : Option CVal :=
  match schema.ref with
  | none => none
  | some r =>
    match refKey r with
    | none => none
    | some k =>
      match List.lookup k env.payload with
      | some v => some v
      | none => List.lookup k st.mockCache

/-- The `visited.add(schema.$ref)` half of `swaggerMocker.getDefSpec`. -/
def addVisited (schema : Sch) (visited : List String) : List String :=
  match schema.ref with
  | some r => if visited.contains r then visited else visited ++ [r]
  | none => visited

/-- `swaggerMocker.getDefSpec` (swaggerMocker.ts lines 367-377): records
the reference in the visited set and dereferences the schema through the
loader.  `none` stands for an unresolvable reference, on which every caller
of the source crashes while reading a property of `undefined`. -/
def getDefSpecM (env : MockEnv) (schema : Sch) (visited : List String) :
    Option (Sch × List String) :=
  let v := addVisited schema visited
  match schema.ref with
  | some r => (List.lookup r env.defs).map (fun c => (c, v))
  | none => some (schema, v)

/-- `swaggerMocker.removeFromSet` (swaggerMocker.ts lines 159-163). -/
def removeFromSet (schema : Sch) (visited : List String) : List String :=
  match schema.ref with
  | some r => visited.erase r
  | none => visited

/-- Modelled from the spec: the generator's `util.isObject` — the resolved
definition is object-shaped when it declares `type : object` or carries
properties or additionalProperties. -/
def isObject (s : Sch) : Bool :=
  s.type == some "object" || s.properties.isSome || s.additionalProperties.isSome

mutual

/-- `swaggerMocker.getProperties` (swaggerMocker.ts lines 379-392): the
spread of all composition parents' property maps (later parents win),
overridden by the definition's own properties.  Unbounded recursion on
circular composition ("circular inherit will not be handled" per the
source comment) surfaces as fuel exhaustion. -/
def getProperties (env : MockEnv) (fuel : Nat) (spec : Sch) (visited : List String) :
    Option (List (String × Sch) × List String) :=
  match fuel with
  | 0 => none
  | n + 1 =>
    match getPropsList env n (spec.allOf.getD []) [] visited with
    | none => none
    | some (acc, v) => some (overrideMerge acc (spec.properties.getD []), v)

/-- The loop over composition items inside `getProperties`. -/
def getPropsList (env : MockEnv) (fuel : Nat) (items : List Sch)
    (acc : List (String × Sch)) (visited : List String) :
    Option (List (String × Sch) × List String) :=
  match fuel with
  | 0 => none
  | n + 1 =>
    match items with
    | [] => some (acc, visited)
    | it :: rest =>
      match getDefSpecM env it visited with
      | none => none
      | some (d, v1) =>
        match getProperties env n d v1 with
        | none => none
        | some (ps, v2) => getPropsList env n rest (overrideMerge acc ps) (removeFromSet it v2)

end

mutual

/-- `swaggerMocker.getDiscriminator` (swaggerMocker.ts lines 394-405): the
definition's own discriminator if truthy, else the first truthy
discriminator found along the composition parents. -/
def getDiscriminator (env : MockEnv) (fuel : Nat) (spec : Sch) (visited : List String) :
    Option (Option String × List String) :=
  match fuel with
  | 0 => none
  | n + 1 =>
    if isTruthyStrOpt spec.discriminator then some (spec.discriminator, visited)
    else getDiscList env n (spec.allOf.getD []) none visited

/-- The `some` loop over composition items inside `getDiscriminator` (the
accumulator keeps the last recursion result even when falsy, as the
source's closed-over variable does). -/
def getDiscList (env : MockEnv) (fuel : Nat) (items : List Sch) (acc : Option String)
    (visited : List String) : Option (Option String × List String) :=
  match fuel with
  | 0 => none
  | n + 1 =>
    match items with
    | [] => some (acc, visited)
    | it :: rest =>
      match getDefSpecM env it visited with
      | none => none
      | some (d, v1) =>
        match getDiscriminator env n d v1 with
        | none => none
        | some (disc, v2) =>
          let v3 := removeFromSet it v2
          if isTruthyStrOpt disc then some (disc, v3) else getDiscList env n rest disc v3

end

mutual

/-- `swaggerMocker.getRequiredProperties` (swaggerMocker.ts lines 306-317):
the definition's own required list concatenated with the recursively
gathered required lists of its composition parents (each resolved against
a fresh visited set). -/
def getRequiredProperties (env : MockEnv) (fuel : Nat) (spec : Sch) : Option (List String) :=
  match fuel with
  | 0 => none
  | n + 1 => getReqList env n (spec.allOf.getD []) (spec.required.getD [])

/-- The loop over composition items inside `getRequiredProperties`. -/
def getReqList (env : MockEnv) (fuel : Nat) (items : List Sch) (acc : List String) :
    Option (List String) :=
  match fuel with
  | 0 => none
  | n + 1 =>
    match items with
    | [] => some acc
    | it :: rest =>
      match getDefSpecM env it [] with
      | none => none
      | some (d, _) =>
        match getRequiredProperties env n d with
        | none => none
        | some r => getReqList env n rest (acc ++ r)

end

/-- The cache-item construction of swaggerMocker.ts lines 276-291: arrays
become trunk items over their elements, plain objects trunk items over
their entries, and everything else a leaf (Modelled from the spec:
`createTrunkItem`/`createLeafItem` build the tagged Cache Item variants).
`none` models `Object.entries(null)` throwing (`typeof null` is `object`),
and cache-item instances reaching the raw-example position, which are
outside the modelled fragment. -/
def buildCacheItem : CVal → Option CVal
  | .jarr xs => some (.trunkArr xs false none)
  | .jobj fs => some (.trunkObj fs false none)
  | .nullv => none
  | .leaf _ _ _ => none
  | .trunkArr _ _ _ => none
  | .trunkObj _ _ _ => none
  | other => some (.leaf other false none)

/-- The metadata mutation of swaggerMocker.ts lines 292-296: set
`isMocked = true` and attach the required list when non-empty. -/
def applyMeta (item : CVal) (req : List String) : CVal :=
  match item with
  | .leaf v _ r => .leaf v true (if req.isEmpty then r else some req)
  | .trunkArr xs _ r => .trunkArr xs true (if req.isEmpty then r else some req)
  | .trunkObj fs _ r => .trunkObj fs true (if req.isEmpty then r else some req)
  | other => other

/-- Modelled from the spec: `MockerCache.checkAndCache` — the mock cache is
write-once per DefRef key; a schema without a resolvable reference key is
not cached. -/
def checkAndCache (schema : Sch) (item : CVal) (st : MState) : MState :=
  match schema.ref with
  | none => st
  | some r =>
    match refKey r with
    | none => st
    | some k =>
      if (List.lookup k st.mockCache).isSome then st
      else { st with mockCache := st.mockCache ++ [(k, item)] }

/-- The common tail of `mockCachedObj` (swaggerMocker.ts lines 274-298):
backtrack the visited set, wrap the example into a cache item, attach the
metadata, and insert it into the mock cache. -/
def finishCacheItem (env : MockEnv) (fuel : Nat) (schema definitionSpec : Sch)
    (exampleFinal : CVal) (visited : List String) (st : MState) :
    Option (CVal × List String × MState) :=
  let v1 := removeFromSet schema visited
  match buildCacheItem exampleFinal with
  | none => none
  | some item0 =>
    match getRequiredProperties env fuel definitionSpec with
    | none => none
    | some req =>
      let item := applyMeta item0 req
      some (item, v1, checkAndCache schema item st)

/-- The suffix of the array-item object name (an ASCII apostrophe followed
by `s item`, as interpolated by the source). -/
def itemSuffix : String := String.mk [Char.ofNat 39] ++ "s item"

mutual

/-- `swaggerMocker.mockCachedObj` (swaggerMocker.ts lines 188-299): the
recursive, cache-aware, cycle-safe generator.  `none` models fuel
exhaustion (divergence of the source) and the crash paths noted on the
helper definitions. -/
def mockCachedObj (env : MockEnv) (fuel : Nat) (objName : String) (schema : Option Sch)
    (ex : CVal) (visited : List String) (st : MState) (isRequest : Bool)
    (discriminatorValue : Option String) : Option (CVal × List String × MState) :=
  match fuel with
  | 0 => none
  | n + 1 =>
    match schema with
    | none => some (.undefV, visited, { st with warnings := st.warnings + 1 })
    | some sch =>
      if (match sch.ref with | some r => visited.contains r | none => false) then
        some (.undefV, visited, st)
      else
        match getCache env st sch with
        | some c => some (c, visited, st)
        | none =>
          match getDefSpecM env sch visited with
          | none => none
          | some (definitionSpec, v1) =>
            if isObject definitionSpec then
              match getProperties env n definitionSpec v1 with
              | none => none
              | some (props, v2) =>
                let ex1 := if ex.jsTruthy then ex else .jobj []
                match getDiscriminator env n definitionSpec v2 with
                | none => none
                | some (disc, v3) =>
                  if isTruthyStrOpt disc && !(isTruthyStrOpt discriminatorValue) &&
                      (props.map Prod.fst).contains (disc.getD "") then
                    match mockForDiscriminator env n definitionSpec ex1 (disc.getD "")
                        isRequest v3 st with
                    | none => none
                    | some (res, v4, st1) =>
                      some (if res.jsTruthy then res else .undefV, v4, st1)
                  else
                    match mockProps env n props objName discriminatorValue ex1 v3 st isRequest with
                    | none => none
                    | some (ex2, v4, st1) =>
                      match
                        (match definitionSpec.additionalProperties with
                         | some (.schAP apSch) =>
                           mockAdditional env n (some apSch) props ex2 v4 st1 isRequest
                             discriminatorValue
                         | some (.boolAP true) =>
                           mockAdditional env n none props ex2 v4 st1 isRequest
                             discriminatorValue
                         | some (.boolAP false) => some (ex2, v4, st1)
                         | none => some (ex2, v4, st1)) with
                      | none => none
                      | some (ex3, v5, st2) =>
                        finishCacheItem env n sch definitionSpec ex3 v5 st2
            else if definitionSpec.type == some "array" then
              let ex1 := if ex.jsTruthy then ex else .jarr []
              match mockCachedObj env n (objName ++ itemSuffix) definitionSpec.items
                  ex1.getIndex0 v1 st isRequest none with
              | none => none
              | some (arrItem, v2, st1) =>
                finishCacheItem env n sch definitionSpec
                  (env.ext.mockArr definitionSpec objName arrItem) v2 st1
            else
              let exampleFinal := if ex.jsTruthy then ex else env.ext.mockPrim definitionSpec objName
              finishCacheItem env n sch definitionSpec exampleFinal v1 st

/-- The `forEach` over the merged property map inside `mockCachedObj`
(swaggerMocker.ts lines 226-240): the pinned discriminator constant is
emitted as a leaf at its key; every other property recurses with the
matching seed read from the example. -/
def mockProps (env : MockEnv) (fuel : Nat) (props : List (String × Sch)) (objName : String)
    (discriminatorValue : Option String) (ex : CVal) (visited : List String) (st : MState)
    (isRequest : Bool) : Option (CVal × List String × MState) :=
  match fuel with
  | 0 => none
  | n + 1 =>
    match props with
    | [] => some (ex, visited, st)
    | (key, psch) :: rest =>
      if key == objName && isTruthyStrOpt discriminatorValue then
        match ex.setField key (CVal.leaf (.str (discriminatorValue.getD "")) false none) with
        | none => none
        | some ex1 => mockProps env n rest objName discriminatorValue ex1 visited st isRequest
      else
        match mockCachedObj env n key (some psch) (ex.getField key) visited st isRequest
            discriminatorValue with
        | none => none
        | some (r, v1, st1) =>
          match ex.setField key r with
          | none => none
          | some ex1 => mockProps env n rest objName discriminatorValue ex1 v1 st1 isRequest

/-- The additionalProperties step inside `mockCachedObj` (swaggerMocker.ts
lines 242-256): one extra property under `util.randomKey()`, skipped with a
logged error on key collision.  A boolean `true` additionalProperties is
passed on as the schema and hits the malformed-schema warning, as in the
source. -/
def mockAdditional (env : MockEnv) (fuel : Nat) (apSchema : Option Sch)
    (props : List (String × Sch)) (ex : CVal) (visited : List String) (st : MState)
    (isRequest : Bool) (discriminatorValue : Option String) :
    Option (CVal × List String × MState) :=
  match fuel with
  | 0 => none
  | n + 1 =>
    let newKey := env.ext.randomKey
    if (props.map Prod.fst).contains newKey then
      some (ex, visited, { st with warnings := st.warnings + 1 })
    else
      match mockCachedObj env n newKey apSchema .undefV visited st isRequest
          discriminatorValue with
      | none => none
      | some (r, v1, st1) =>
        match ex.setField newKey r with
        | none => none
        | some ex1 => some (ex1, v1, st1)

/-- `swaggerMocker.mockForDiscriminator` (swaggerMocker.ts lines 320-355):
chooses the discriminator value deterministically (first enum entry on the
discriminator property if an enum array is declared, else the first key of
the discriminator map), resolves the subtype, and recurses on it with an
empty-object seed, a fresh visited set, and the chosen value pinned. -/
def mockForDiscriminator (env : MockEnv) (fuel : Nat) (schema : Sch) (ex : CVal)
    (discriminator : String) (isRequest : Bool) (visited : List String) (st : MState) :
    Option (CVal × List String × MState) :=
  match fuel with
  | 0 => none
  | n + 1 =>
    match getDefSpecM env schema visited with
    | none => none
    | some (disDetail, v1) =>
      match disDetail.discriminatorMap with
      | none => some (.undefV, removeFromSet schema v1, st)
      | some dmap =>
        if dmap.isEmpty then some (.undefV, removeFromSet schema v1, st)
        else
          match getProperties env n disDetail [] with
          | none => none
          | some (props, _) =>
            let discriminatorValue : Option String :=
              match List.lookup discriminator props with
              | some p =>
                match p.enum with
                | some l => l.get? 0
                | none => (dmap.get? 0).map Prod.fst
              | none => (dmap.get? 0).map Prod.fst
            match
              (match discriminatorValue with
               | some dvs => List.lookup dvs dmap
               | none => none) with
            | none => some (ex, removeFromSet schema v1, st)
            | some subSpec =>
              match mockCachedObj env n discriminator (some subSpec) (.jobj []) [] st
                  isRequest discriminatorValue with
              | none => none
              | some (cacheItem0, _, st1) =>
                some (if cacheItem0.jsTruthy then cacheItem0 else .undefV,
                  removeFromSet schema v1, st1)

end

/-- The shape of `swaggerMocker.mockObj` as invoked by `mockRequest`
(object name, schema, seed, visited set, isRequest); the generation-and-
materialization pipeline behind it is irrelevant to the parameter-loop
claims, so it is abstracted as a function parameter. -/
abbrev MockObjFn := String → Sch → CVal → List String → Bool → CVal

/-- The `onParameter` rule validator: `none` is an omitted predicate, which
defaults to allow (`!validator || validator(...)`). -/
def validatorOk (validator : Option (Sch → Bool)) (s : Sch) : Bool :=
  match validator with
  | none => true
  | some f => f s

/-- One iteration of the parameter loop of `swaggerMocker.mockRequest`
(swaggerMocker.ts lines 106-157): `resourceGroupName` and `api-version`
are always overwritten with the caller-scoped value and the document
version; a body parameter (one with a `schema` field) is regenerated with
the supplied value as seed; any other parameter is skipped when its value
is already present, and otherwise generated from the original element.
`none` models the crash on an unresolvable parameter reference. -/
def processParam (env : MockEnv) (mockObjFn : MockObjFn) (validator : Option (Sch → Bool))
    (rp specVersion : String) (ex : List (String × CVal)) (element : Sch) :
    Option (List (String × CVal)) :=
  match getDefSpecM env element [] with
  | none => none
  | some (paramEle, visited) =>
    if paramEle.name = some "resourceGroupName" then
      some (assocSet ex "resourceGroupName" (.str ("rg" ++ rp)))
    else if paramEle.name = some "api-version" then
      some (assocSet ex "api-version" (.str specVersion))
    else
      match paramEle.schemaF with
      | some psch =>
        if validatorOk validator paramEle then
          let nm := paramEle.name.getD "undefined"
          let seed := (List.lookup nm ex).getD .undefV
          let seed1 := if seed.jsTruthy then seed else .jobj []
          some (assocSet ex nm (mockObjFn nm psch seed1 visited true))
        else some ex
      | none =>
        let nm := paramEle.name.getD "undefined"
        if (ex.map Prod.fst).contains nm then some ex
        else if validatorOk validator paramEle then
          some (assocSet ex nm (mockObjFn nm element ((List.lookup nm ex).getD .undefV) [] true))
        else some ex

/-- `swaggerMocker.mockRequest`: the fold of `processParam` over the
operation's parameter list. -/
def mockRequest (env : MockEnv) (mockObjFn : MockObjFn) (validator : Option (Sch → Bool))
    (rp specVersion : String) (ex : List (String × CVal)) :
    List Sch → Option (List (String × CVal))
  | [] => some ex
  | p :: rest =>
    match processParam env mockObjFn validator rp specVersion ex p with
    | none => none
    | some ex1 => mockRequest env mockObjFn validator rp specVersion ex1 rest

/-- The fixed set of pre-handled success codes of
`swaggerMocker.mockForExample`. -/
def preHandledStatusCode : List String := ["200", "201", "202", "204"]

/-- One of the two back-fill loops of `mockForExample`: every declared
status satisfying the branch condition has its slot set to an empty
object. -/
def backfillLoop (cond : String → Bool) (acc : List (String × CVal))
    (statuses : List String) : List (String × CVal) :=
  statuses.foldl (fun a s => if cond s then assocSet a s (.jobj []) else a) acc

/-- The response-slot back-fill of `swaggerMocker.mockForExample`
(swaggerMocker.ts lines 38-50): with an empty supplied response map, every
declared non-default status receives an empty slot; otherwise every
declared status other than `default` and the pre-handled success codes has
its slot set to an empty object (unconditionally, whether or not a slot was
already supplied). -/
def mockForExampleBackfill (responses : List (String × CVal)) (specStatuses : List String) :
    List (String × CVal) :=
  if responses.isEmpty then
    backfillLoop (fun s => s != "default") responses specStatuses
  else
    backfillLoop (fun s => s != "default" && !(preHandledStatusCode.contains s))
      responses specStatuses

/-- Option choice with JavaScript first-some-wins semantics, used to state
lookup characterizations. -/
def orO {α : Type} (x y : Option α) : Option α :=
  match x with
  | some v => some v
  | none => y

/-- The enum recorded on the discriminator property of a definition, as two
nested options (outer: the definition exists, inner: its enum). -/
def discriminatorEnumOf (defs : Defs) (nm disc : String) : Option (Option (List String)) :=
  (List.lookup nm defs).bind (fun defn =>
    (List.lookup disc (defn.properties.getD [])).map Sch.enum)

/-- A deterministic external synthesizer for the concrete runs. -/
def constExt : ExtMocker :=
  ⟨fun _ nm => .str ("mock-" ++ nm), fun _ _ item => .jarr [item], "newProp"⟩

/-- The empty generation state. -/
def st0 : MState := ⟨[], 0⟩

/-- Self-referential fixture: `Node` with a single property `next`
referencing `Node` itself. -/
def nodeDef : Sch := .node
  { type := some "object"
    properties := some [("next", refSch "#/definitions/Node")] }

/-- The environment holding the `Node` definition. -/
def nodeEnv : MockEnv := ⟨[("#/definitions/Node", nodeDef)], [], constExt⟩

/-- Generating a mock for the self-referential `Node`. -/
def nodeRun : Option (CVal × List String × MState) :=
  mockCachedObj nodeEnv 10 "Node" (some (refSch "#/definitions/Node")) .undefV [] st0 false none

/-- Cyclic-composition fixture: `A` composes `B`. -/
def cycASch : Sch := .node { type := some "object", allOf := some [refSch "#/definitions/B"] }

/-- Cyclic-composition fixture: `B` composes `A`. -/
def cycBSch : Sch := .node { type := some "object", allOf := some [refSch "#/definitions/A"] }

/-- Cyclic-composition fixture: the definitions table of the pair. -/
def cycDefs : List (String × Sch) :=
  [("#/definitions/A", cycASch), ("#/definitions/B", cycBSch)]

/-- The environment holding the cyclic composition pair. -/
def cycEnv : MockEnv := ⟨cycDefs, [], constExt⟩

/-- Discriminator fixture: the resolved concrete subtype. -/
def catSubSch : Sch := .node
  { type := some "object", properties := some [("kind", strSch), ("purrs", strSch)] }

/-- Discriminator fixture: the polymorphic base with a discriminator map
selecting `Cat`. -/
def polyBaseSch : Sch := .node
  { type := some "object"
    properties := some [("kind", strSch)]
    discriminator := some "kind"
    discriminatorMap := some [("Cat", refSch "#/definitions/CatSub")] }

/-- The environment holding the polymorphic pair. -/
def polyEnv : MockEnv :=
  ⟨[("#/definitions/Poly", polyBaseSch), ("#/definitions/CatSub", catSubSch)], [], constExt⟩

/-- The cache item generated for the `Node` fixture. -/
def nodeItem : CVal := .trunkObj [("next", .undefV)] true none

/-- A payload-cache item standing for a caller-supplied real example. -/
def payloadItem : CVal := .leaf (.str "real") false none

/-- The `Node` environment with a payload-cache entry for `Node`. -/
def payloadEnv : MockEnv :=
  ⟨[("#/definitions/Node", nodeDef)], [("/definitions/Node", payloadItem)], constExt⟩

/-- An inline `resourceGroupName` parameter. -/
def rgParamSch : Sch := .node { name := some "resourceGroupName", type := some "string" }

/-- An inline plain query parameter named `top`. -/
def plainParamSch : Sch := .node { name := some "top", type := some "string" }

/-- A mockObj stand-in that always produces a fixed string. -/
def constMockObjFn : MockObjFn := fun _ _ _ _ _ => .str "generated"



theorem lookup_mem {β : Type} {k : String} {v : β} :
    ∀ {l : List (String × β)}, List.lookup k l = some v → (k, v) ∈ l := by
  intro l h
  induction l with
  | nil => simp [List.lookup] at h
  | cons e t ih =>
    rw [show e = (e.1, e.2) from rfl] at h ⊢
    rw [List.lookup] at h
    cases hk : (k == e.1) with
    | true =>
      rw [hk] at h
      simp at h
      have hke : k = e.1 := by simpa using hk
      simp [h, hke]
    | false =>
      rw [hk] at h
      simp at h ⊢
      exact Or.inr (ih h)

theorem lookup_isSome_eq_contains {β : Type} (k : String) :
    ∀ (l : List (String × β)), (List.lookup k l).isSome = (l.map Prod.fst).contains k := by
  intro l
  induction l with
  | nil => rfl
  | cons e t ih =>
    rw [show e = (e.1, e.2) from rfl]
    rw [List.lookup]
    cases hk : (k == e.1) with
    | true => simp [hk]
    | false => simp [hk, ih]

theorem lookup_append_chain {β : Type} (k : String) :
    ∀ (l1 l2 : List (String × β)),
      List.lookup k (l1 ++ l2) =
        (match List.lookup k l1 with
         | some v => some v
         | none => List.lookup k l2) := by
  intro l1 l2
  induction l1 with
  | nil => simp [List.lookup]
  | cons e t ih =>
    rw [show e = (e.1, e.2) from rfl]
    rw [List.cons_append, List.lookup, List.lookup]
    cases hk : (k == e.1) with
    | true => simp
    | false => simpa using ih

theorem lookup_mapReplace_self {β : Type} (k : String) (v : β) :
    ∀ (l : List (String × β)), (l.map Prod.fst).contains k = true →
      List.lookup k (l.map (fun e => if e.1 == k then (k, v) else e)) = some v := by
  intro l
  induction l with
  | nil => intro h; simp at h
  | cons e t ih =>
    intro h
    cases hk : (e.1 == k) with
    | true =>
      simp only [List.map_cons, hk, if_pos]
      simp [List.lookup]
    | false =>
      have hk2 : (k == e.1) = false := by
        rw [beq_eq_false_iff_ne] at hk ⊢
        exact fun he => hk he.symm
      simp only [List.map_cons, List.contains_cons, hk2, Bool.false_or] at h
      simp only [List.map_cons, hk, Bool.false_eq_true, if_false]
      rw [List.lookup, hk2]
      exact ih h

theorem lookup_mapReplace_other {β : Type} (k k2 : String) (v : β) (hne : k2 ≠ k) :
    ∀ (l : List (String × β)),
      List.lookup k2 (l.map (fun e => if e.1 == k then (k, v) else e)) = List.lookup k2 l := by
  intro l
  induction l with
  | nil => rfl
  | cons e t ih =>
    cases hk : (e.1 == k) with
    | true =>
      have he : e.1 = k := by simpa using hk
      simp only [List.map_cons, hk, if_pos]
      rw [List.lookup, List.lookup]
      have h1 : (k2 == k) = false := by simpa [beq_eq_false_iff_ne] using hne
      have h2 : (k2 == e.1) = false := by rw [he]; exact h1
      rw [h1, h2]
      exact ih
    | false =>
      simp only [List.map_cons, hk, Bool.false_eq_true, if_false]
      rw [List.lookup, List.lookup]
      cases hk2 : (k2 == e.1) with
      | true => rfl
      | false => exact ih

theorem lookup_assocSet_self {β : Type} (l : List (String × β)) (k : String) (v : β) :
    List.lookup k (assocSet l k v) = some v := by
  rw [assocSet]
  cases hc : (l.map Prod.fst).contains k with
  | true => simpa using lookup_mapReplace_self k v l hc
  | false =>
    simp only [Bool.false_eq_true, if_false]
    rw [lookup_append_chain]
    have hs : (List.lookup k l).isSome = false := by rw [lookup_isSome_eq_contains, hc]
    have hn : List.lookup k l = none := by
      cases hl : List.lookup k l with
      | none => rfl
      | some w => rw [hl] at hs; simp at hs
    rw [hn]
    simp [List.lookup]

theorem lookup_assocSet_other {β : Type} (l : List (String × β)) (k k2 : String) (v : β)
    (hne : k2 ≠ k) : List.lookup k2 (assocSet l k v) = List.lookup k2 l := by
  rw [assocSet]
  cases hc : (l.map Prod.fst).contains k with
  | true => simpa using lookup_mapReplace_other k k2 v hne l
  | false =>
    simp only [Bool.false_eq_true, if_false]
    rw [lookup_append_chain]
    cases hl : List.lookup k2 l with
    | some w => rfl
    | none =>
      simp only [List.lookup]
      have : (k2 == k) = false := by simpa [beq_eq_false_iff_ne] using hne
      rw [this]




theorem lookup_overA {β : Type} (k : String) (b : List (String × β)) :
    ∀ (a : List (String × β)),
      List.lookup k (a.map (fun e =>
          match List.lookup e.1 b with | some v => (e.1, v) | none => e)) =
        (match List.lookup k a with
         | some v => (match List.lookup k b with | some w => some w | none => some v)
         | none => none) := by
  intro a
  induction a with
  | nil => rfl
  | cons e t ih =>
    rw [show e = (e.1, e.2) from rfl]
    simp only [List.map_cons]
    cases hk : (k == e.1) with
    | true =>
      have hke : k = e.1 := by simpa using hk
      cases hb : List.lookup e.1 b with
      | some w =>
        simp only [hb]
        rw [List.lookup, List.lookup, hk, hke, hb]
      | none =>
        simp only [hb]
        rw [List.lookup, List.lookup, hk, hke, hb]
    | false =>
      cases hb : List.lookup e.1 b with
      | some w =>
        simp only [hb]
        rw [List.lookup, List.lookup, hk]
        exact ih
      | none =>
        simp only [hb]
        rw [List.lookup, List.lookup, hk]
        exact ih

theorem lookup_filterNotIn {β : Type} (k : String) (keys : List String) :
    ∀ (b : List (String × β)),
      List.lookup k (b.filter (fun e => !(keys.contains e.1))) =
        (if keys.contains k = true then none else List.lookup k b) := by
  intro b
  induction b with
  | nil => simp [List.lookup]
  | cons e t ih =>
    rw [show e = (e.1, e.2) from rfl]
    cases hin : keys.contains e.1 with
    | true =>
      simp only [List.filter_cons, hin, Bool.not_true, Bool.false_eq_true, if_false]
      rw [ih]
      cases hkin : keys.contains k with
      | true => simp
      | false =>
        simp only [Bool.false_eq_true, if_false]
        rw [List.lookup]
        have : (k == e.1) = false := by
          rw [beq_eq_false_iff_ne]
          intro he
          rw [he] at hkin
          rw [hkin] at hin
          exact Bool.false_ne_true hin
        rw [this]
    | false =>
      simp only [List.filter_cons, hin, Bool.not_false, if_pos]
      rw [List.lookup, List.lookup]
      cases hk : (k == e.1) with
      | true =>
        have hke : k = e.1 := by simpa using hk
        rw [hke, hin]
        simp
      | false => simpa using ih

theorem lookup_overrideMerge {β : Type} (a b : List (String × β)) (k : String) :
    List.lookup k (overrideMerge a b) = orO (List.lookup k b) (List.lookup k a) := by
  rw [overrideMerge, lookup_append_chain, lookup_overA, lookup_filterNotIn]
  cases ha : List.lookup k a with
  | some v =>
    have hc : (a.map Prod.fst).contains k = true := by
      rw [← lookup_isSome_eq_contains, ha]; rfl
    cases hb : List.lookup k b with
    | some w => simp [ha, hb, hc, orO]
    | none => simp [ha, hb, hc, orO]
  | none =>
    have hc : (a.map Prod.fst).contains k = false := by
      rw [← lookup_isSome_eq_contains, ha]; rfl
    cases hb : List.lookup k b with
    | some w =>
      simp [ha, hb, hc, orO]
      intro x hx
      have hmem : (a.map Prod.fst).contains k = true := by
        have : k ∈ a.map Prod.fst := List.mem_map.mpr ⟨(k, x), hx, rfl⟩
        simpa using this
      rw [hmem] at hc
      exact absurd hc (by decide)
    | none => simp [ha, hb, hc, orO]

theorem mem_dedupFold (x : String) :
    ∀ (l acc : List String),
      (x ∈ l.foldl (fun acc s => if acc.contains s then acc else acc ++ [s]) acc ↔
        x ∈ acc ∨ x ∈ l) := by
  intro l
  induction l with
  | nil => intro acc; simp
  | cons s t ih =>
    intro acc
    rw [List.foldl_cons]
    cases hc : acc.contains s with
    | true =>
      simp only [if_pos]
      rw [ih]
      constructor
      · rintro (h | h)
        · exact Or.inl h
        · exact Or.inr (List.mem_cons_of_mem _ h)
      · rintro (h | h)
        · exact Or.inl h
        · rcases List.mem_cons.mp h with h | h
          · subst h
            exact Or.inl (by simpa using hc)
          · exact Or.inr h
    | false =>
      simp only [Bool.false_eq_true, if_false]
      rw [ih]
      simp only [List.mem_append, List.mem_singleton, List.mem_cons]
      tauto

theorem mem_dedupList (x : String) (l : List String) : x ∈ dedupList l ↔ x ∈ l := by
  rw [dedupList, mem_dedupFold]
  simp




theorem properties_setProperties (s : Sch) (v : Option (List (String × Sch))) :
    (s.setProperties v).properties = v := rfl

theorem properties_setRequired (s : Sch) (v : Option (List String)) :
    (s.setRequired v).properties = s.properties := rfl

theorem properties_setXMsAzureResource (s : Sch) (v : Bool) :
    (s.setXMsAzureResource v).properties = s.properties := rfl

theorem required_setProperties (s : Sch) (v : Option (List (String × Sch))) :
    (s.setProperties v).required = s.required := rfl

theorem required_setRequired (s : Sch) (v : Option (List String)) :
    (s.setRequired v).required = v := rfl

theorem required_setXMsAzureResource (s : Sch) (v : Bool) :
    (s.setXMsAzureResource v).required = s.required := rfl

theorem azure_setProperties (s : Sch) (v : Option (List (String × Sch))) :
    (s.setProperties v).xMsAzureResource = s.xMsAzureResource := rfl

theorem azure_setRequired (s : Sch) (v : Option (List String)) :
    (s.setRequired v).xMsAzureResource = s.xMsAzureResource := rfl

theorem azure_setXMsAzureResource (s : Sch) (v : Bool) :
    (s.setXMsAzureResource v).xMsAzureResource = v := rfl

theorem merge_child_properties (parent child : Sch) :
    ((mergeParentAllOfInChild parent child).2).properties =
      some (overrideMerge (parent.properties.getD []) (child.properties.getD [])) := by
  cases hp : parent.properties <;> cases hcp : child.properties <;>
    cases hr : parent.required <;> cases hb : parent.xMsAzureResource <;>
      simp [mergeParentAllOfInChild, hp, hcp, hr, hb, properties_setProperties,
        properties_setRequired, properties_setXMsAzureResource, required_setProperties,
        azure_setProperties]

theorem merge_child_required (parent child : Sch) :
    ((mergeParentAllOfInChild parent child).2).required =
      (match parent.required with
       | none => child.required
       | some pr => some (dedupList (pr ++ child.required.getD []))) := by
  cases hp : parent.properties <;> cases hcp : child.properties <;>
    cases hr : parent.required <;> cases hb : parent.xMsAzureResource <;>
      simp [mergeParentAllOfInChild, hp, hcp, hr, hb, properties_setProperties,
        properties_setRequired, properties_setXMsAzureResource, required_setProperties,
        required_setRequired, required_setXMsAzureResource, azure_setProperties]

theorem merge_child_azure (parent child : Sch) :
    ((mergeParentAllOfInChild parent child).2).xMsAzureResource =
      (parent.xMsAzureResource || child.xMsAzureResource) := by
  cases hp : parent.properties <;> cases hcp : child.properties <;>
    cases hr : parent.required <;> cases hb : parent.xMsAzureResource <;>
      simp [mergeParentAllOfInChild, hp, hcp, hr, hb, properties_setProperties,
        azure_setProperties, azure_setRequired, azure_setXMsAzureResource,
        required_setProperties]




mutual

theorem mem_buildRefs (t : PTree) (m : String) (h : t.hasNode m = true) :
    ("#/definitions/" ++ m) ∈ buildOneOfReferences t := by
  match t with
  | .mk n cs =>
    rw [PTree.hasNode] at h
    rw [buildOneOfReferences]
    rcases Bool.or_eq_true_iff.mp h with h1 | h2
    · have : n = m := by simpa using h1
      subst this
      exact List.mem_cons_self _ _
    · exact List.mem_cons_of_mem _ (mem_buildRefsList cs m h2)

theorem mem_buildRefsList (l : List PTree) (m : String) (h : hasNodeList l m = true) :
    ("#/definitions/" ++ m) ∈ buildRefsList l := by
  match l with
  | [] => simp [hasNodeList] at h
  | t :: ts =>
    rw [hasNodeList] at h
    rw [buildRefsList]
    rcases Bool.or_eq_true_iff.mp h with h1 | h2
    · exact List.mem_append_left _ (mem_buildRefs t m h1)
    · exact List.mem_append_right _ (mem_buildRefsList ts m h2)

end

theorem str_append_cancel (p a b : String) (h : p ++ a = p ++ b) : a = b := by
  have hd : p.data ++ a.data = p.data ++ b.data := by
    have h1 : (p ++ a).data = (p ++ b).data := by rw [h]
    simpa [String.data_append] using h1
  cases a
  cases b
  simp only [List.append_cancel_left_eq] at hd
  exact congrArg String.mk hd

theorem entry_unique_of_nodup {β : Type} (k : String) (o1 o2 : β) :
    ∀ (doc : List (String × β)), (doc.map Prod.fst).Nodup →
      (k, o1) ∈ doc → (k, o2) ∈ doc → o1 = o2 := by
  intro doc
  induction doc with
  | nil => intro _ h; simp at h
  | cons e t ih =>
    intro hnd h1 h2
    rcases List.mem_cons.mp h1 with h1 | h1 <;> rcases List.mem_cons.mp h2 with h2 | h2
    · rw [← h1] at h2
      exact (congrArg Prod.snd h2).symm
    · exfalso
      have hk : e.1 = k := by rw [← h1]
      have : k ∈ t.map Prod.fst := List.mem_map.mpr ⟨(k, o2), h2, rfl⟩
      rw [List.map_cons, List.nodup_cons] at hnd
      exact hnd.1 (hk ▸ this)
    · exfalso
      have hk : e.1 = k := by rw [← h2]
      have : k ∈ t.map Prod.fst := List.mem_map.mpr ⟨(k, o1), h1, rfl⟩
      rw [List.map_cons, List.nodup_cons] at hnd
      exact hnd.1 (hk ▸ this)
    · rw [List.map_cons, List.nodup_cons] at hnd
      exact ih hnd.2 h1 h2

theorem refsOf_mem (doc : RDoc) (k u : String) :
    (k, u) ∈ refsOf doc ↔ ∃ obj, (k, obj) ∈ doc ∧ obj.ref = some u := by
  rw [refsOf, List.mem_filterMap]
  constructor
  · rintro ⟨⟨k2, obj⟩, hmem, heq⟩
    simp only [Option.map_eq_some'] at heq
    rcases heq with ⟨u2, href, heq2⟩
    rcases Prod.mk.injEq .. ▸ heq2 with ⟨hk, hu⟩
    exact ⟨obj, by rw [hk] at hmem; exact hmem, by rw [hu] at href; exact href⟩
  · rintro ⟨obj, hmem, href⟩
    exact ⟨(k, obj), hmem, by simp [href]⟩

theorem refsOf_keys_sublist (doc : RDoc) :
    List.Sublist ((refsOf doc).map Prod.fst) (doc.map Prod.fst) := by
  induction doc with
  | nil => simp [refsOf]
  | cons e t ih =>
    rw [refsOf, List.filterMap_cons]
    cases he : e.2.ref with
    | none =>
      simp only [Option.map_none']
      exact List.Sublist.cons _ ih
    | some u =>
      simp only [Option.map_some']
      exact List.Sublist.cons₂ _ ih

theorem refsOf_uri_unique (doc : RDoc) (hnd : (doc.map Prod.fst).Nodup) (k u u2 : String)
    (h1 : (k, u) ∈ refsOf doc) (h2 : (k, u2) ∈ refsOf doc) : u = u2 := by
  rcases (refsOf_mem doc k u).mp h1 with ⟨o1, hm1, hr1⟩
  rcases (refsOf_mem doc k u2).mp h2 with ⟨o2, hm2, hr2⟩
  have : o1 = o2 := entry_unique_of_nodup k o1 o2 doc hnd hm1 hm2
  rw [this, hr2] at hr1
  have := Option.some.injEq u2 u ▸ hr1
  exact this.symm




theorem rewriteLocation_other (node : PTree) (doc : RDoc) (loc k : String) (hne : k ≠ loc) :
    List.lookup k (rewriteLocation node doc loc) = List.lookup k doc := by
  rw [rewriteLocation]
  cases h : List.lookup loc doc with
  | none => rfl
  | some obj => exact lookup_assocSet_other doc loc k _ hne

theorem rewriteLocation_self (node : PTree) (doc : RDoc) (loc : String) (obj : SiteObj)
    (h : List.lookup loc doc = some obj) :
    List.lookup loc (rewriteLocation node doc loc) =
      some { obj with ref := none, oneOf := some (buildOneOfReferences node) } := by
  rw [rewriteLocation, h]
  exact lookup_assocSet_self doc loc _

theorem fold_rewrite_not_mem (node : PTree) (k : String) :
    ∀ (locs : List String) (doc : RDoc), k ∉ locs →
      List.lookup k (locs.foldl (rewriteLocation node) doc) = List.lookup k doc := by
  intro locs
  induction locs with
  | nil => intro doc _; rfl
  | cons loc rest ih =>
    intro doc hk
    rw [List.foldl_cons]
    rw [ih _ (fun hm => hk (List.mem_cons_of_mem _ hm))]
    exact rewriteLocation_other node doc loc k (fun he => hk (he ▸ List.mem_cons_self _ _))

theorem fold_rewrite_mem (node : PTree) (k : String) (obj : SiteObj) :
    ∀ (locs : List String) (doc : RDoc), locs.Nodup → k ∈ locs →
      List.lookup k doc = some obj →
      List.lookup k (locs.foldl (rewriteLocation node) doc) =
        some { obj with ref := none, oneOf := some (buildOneOfReferences node) } := by
  intro locs
  induction locs with
  | nil => intro doc _ hk; simp at hk
  | cons loc rest ih =>
    intro doc hnd hk hobj
    rw [List.foldl_cons]
    rw [List.nodup_cons] at hnd
    by_cases he : k = loc
    · subst he
      rw [fold_rewrite_not_mem node k rest _ hnd.1]
      exact rewriteLocation_self node doc k obj hobj
    · rcases List.mem_cons.mp hk with h | h
      · exact absurd h he
      · exact ih _ hnd.2 h (by rw [rewriteLocation_other node doc loc k he]; exact hobj)

theorem processNode_other (refs : List (String × String)) (doc : RDoc) (node : PTree)
    (k : String) (hn : ∀ u, (k, u) ∈ refs → u ≠ "#/definitions/" ++ node.name) :
    List.lookup k (processNode refs doc node) = List.lookup k doc := by
  rw [processNode]
  cases hc : node.children.isEmpty with
  | true => simp
  | false =>
    simp only [hc, Bool.false_eq_true, if_false]
    apply fold_rewrite_not_mem
    intro hk
    rcases List.mem_map.mp hk with ⟨kv, hkv, hfst⟩
    have hkv2 : kv ∈ refs ∧ (kv.2 == "#/definitions/" ++ node.name &&
        (!strContains kv.1 "allOf" && !strContains kv.1 "oneOf")) = true := by
      have := List.mem_filter.mp hkv
      constructor
      · exact this.1
      · have h2 := this.2
        simp only [Bool.and_assoc] at h2 ⊢
        exact h2
    have huri : kv.2 = "#/definitions/" ++ node.name := by
      have := hkv2.2
      rw [Bool.and_eq_true] at this
      simpa using this.1
    have : (k, kv.2) ∈ refs := by
      rw [← hfst]
      exact hkv2.1
    exact hn kv.2 this huri

theorem processNode_target (refs : List (String × String)) (doc : RDoc) (node : PTree)
    (k : String) (obj : SiteObj)
    (hndrefs : (refs.map Prod.fst).Nodup)
    (hchild : node.children ≠ [])
    (hmem : (k, "#/definitions/" ++ node.name) ∈ refs)
    (hallof : strContains k "allOf" = false)
    (honeof : strContains k "oneOf" = false)
    (hobj : List.lookup k doc = some obj) :
    List.lookup k (processNode refs doc node) =
      some { obj with ref := none, oneOf := some (buildOneOfReferences node) } := by
  rw [processNode]
  cases hc : node.children.isEmpty with
  | true =>
    exact absurd (List.isEmpty_iff.mp hc) hchild
  | false =>
    simp only [hc, Bool.false_eq_true, if_false]
    apply fold_rewrite_mem
    · have hsub : List.Sublist
          ((refs.filter (fun kv => kv.2 == "#/definitions/" ++ node.name &&
            !strContains kv.1 "allOf" && !strContains kv.1 "oneOf")).map Prod.fst)
          (refs.map Prod.fst) :=
        List.Sublist.map Prod.fst (List.filter_sublist refs)
      exact hndrefs.sublist hsub
    · apply List.mem_map.mpr
      refine ⟨(k, "#/definitions/" ++ node.name), ?_, rfl⟩
      apply List.mem_filter.mpr
      refine ⟨hmem, ?_⟩
      simp [hallof, honeof]
    · exact hobj




theorem foldl_processNode_preserve (refs : List (String × String)) (k bad : String)
    (huniq : ∀ u, (k, u) ∈ refs → u = bad) :
    ∀ (ts : List PTree) (d : RDoc), (∀ t2, t2 ∈ ts → "#/definitions/" ++ t2.name ≠ bad) →
      List.lookup k (ts.foldl (processNode refs) d) = List.lookup k d := by
  intro ts
  induction ts with
  | nil => intro d _; rfl
  | cons t2 rest ih =>
    intro d hcond
    rw [List.foldl_cons]
    rw [ih _ (fun t3 h3 => hcond t3 (List.mem_cons_of_mem _ h3))]
    apply processNode_other
    intro u hu hequ
    exact hcond t2 (List.mem_cons_self _ _) (by rw [← hequ]; exact huniq u hu)

/-- C1 (amended): after discriminator resolution, for a tree node with at
least one composition child, every reference site whose pointer string does
not contain the substrings `allOf` or `oneOf` (the source's exclusion test)
and whose `$ref` targets the node is rewritten into a oneOf alternative
set holding a reference to the node itself and to every node of its
polymorphic tree. -/
theorem c1_amended_oneof_rewrite :
    (∀ (subTreeMap : List (String × PTree)) (doc : RDoc) (nmKey : String) (t : PTree)
        (k : String) (obj : SiteObj),
        (doc.map Prod.fst).Nodup →
        ((subTreeMap.map Prod.snd).map PTree.name).Nodup →
        (nmKey, t) ∈ subTreeMap →
        t.children ≠ [] →
        List.lookup k doc = some obj →
        obj.ref = some ("#/definitions/" ++ t.name) →
        strContains k "allOf" = false →
        strContains k "oneOf" = false →
        List.lookup k (updateReferencesWithOneOf subTreeMap (refsOf doc) doc) =
          some { obj with ref := none, oneOf := some (buildOneOfReferences t) })
    ∧ (∀ t m, t.hasNode m = true → ("#/definitions/" ++ m) ∈ buildOneOfReferences t) := by
  constructor
  · intro subTreeMap doc nmKey t k obj hnddoc hndnames hmem hchild hobj href hallof honeof
    rw [updateReferencesWithOneOf]
    have htmem : t ∈ subTreeMap.map Prod.snd := List.mem_map.mpr ⟨(nmKey, t), hmem, rfl⟩
    rcases List.append_of_mem htmem with ⟨l1, l2, hsplit⟩
    rw [hsplit, List.foldl_append, List.foldl_cons]
    have hnd2 : ((l1 ++ t :: l2).map PTree.name).Nodup := by rw [← hsplit]; exact hndnames
    rw [List.map_append, List.map_cons, List.nodup_append] at hnd2
    have hl1 : ∀ t2, t2 ∈ l1 → t2.name ≠ t.name := by
      intro t2 h2 hequ
      exact hnd2.2.2 (List.mem_map.mpr ⟨t2, h2, rfl⟩) (by rw [hequ]; exact List.mem_cons_self _ _)
    have hl2 : ∀ t2, t2 ∈ l2 → t2.name ≠ t.name := by
      intro t2 h2 hequ
      rw [List.nodup_cons] at hnd2
      exact hnd2.2.1.1 (by rw [← hequ]; exact List.mem_map.mpr ⟨t2, h2, rfl⟩)
    have hkref : (k, "#/definitions/" ++ t.name) ∈ refsOf doc :=
      (refsOf_mem doc k _).mpr ⟨obj, lookup_mem hobj, href⟩
    have huniq : ∀ u, (k, u) ∈ refsOf doc → u = "#/definitions/" ++ t.name :=
      fun u hu => refsOf_uri_unique doc hnddoc k u _ hu hkref
    have hndrefs : ((refsOf doc).map Prod.fst).Nodup :=
      hnddoc.sublist (refsOf_keys_sublist doc)
    have h1 : List.lookup k (l1.foldl (processNode (refsOf doc)) doc) = some obj := by
      rw [foldl_processNode_preserve (refsOf doc) k _ huniq l1 doc
        (fun t2 h2 hequ => hl1 t2 h2 (str_append_cancel _ _ _ hequ))]
      exact hobj
    have h2 := processNode_target (refsOf doc) _ t k obj hndrefs hchild hkref hallof honeof h1
    rw [foldl_processNode_preserve (refsOf doc) k _ huniq l2 _
      (fun t2 hm hequ => hl2 t2 hm (str_append_cancel _ _ _ hequ))]
    exact h2
  · exact fun t m h => mem_buildRefs t m h

/-- C1 counterexample: the site at `siteOdd` (a property named
`fallOfMan`) is not inside any composition list or alternative-set array
— no pointer segment equals `allOf` or `oneOf` — and it references the
base `Animal` of a non-trivial discriminator tree, yet after the rewrite
it still holds its original `$ref` and no oneOf: the source skips it
because its pointer merely contains the substring `allOf`. -/
theorem c1_counterexample :
    animalTree.children ≠ [] ∧
    insideSegment "allOf" siteOdd = false ∧
    insideSegment "oneOf" siteOdd = false ∧
    List.lookup siteOdd c1Doc = some { ref := some "#/definitions/Animal", oneOf := none } ∧
    List.lookup siteOdd c1Result = some { ref := some "#/definitions/Animal", oneOf := none } := by
  refine ⟨?_, rfl, rfl, rfl, rfl⟩
  simp [animalTree, PTree.children]

/-- Witness for C1: the ordinary reference site is rewritten into the
oneOf set over `Animal` and `Cat`. -/
theorem c1_witness :
    List.lookup siteNormal (updateReferencesWithOneOf c1Map (refsOf c1Doc) c1Doc) =
      some { ref := none, oneOf := some ["#/definitions/Animal", "#/definitions/Cat"] } := by
  have h := c1_amended_oneof_rewrite.1 c1Map c1Doc "Animal" animalTree siteNormal
    { ref := some "#/definitions/Animal", oneOf := none }
    (by decide) (by decide) (by rw [c1Map]; exact List.mem_singleton.mpr rfl)
    (by simp [animalTree, PTree.children]) rfl rfl rfl rfl
  exact h




/-- C2: composition flattening merges each parent into the child: the merged
property map contains every parent property and every child property with
the child winning on name collision; the required set is the union of the
two required sets; the x-ms-azure-resource marker propagates from the
parent; and resolving the concrete scenario (parent `P` with `id`, child
`C` composing `P` and adding `name`) yields properties containing `id` and
`name` and required `[id, name]`. -/
theorem c2_composition_flattening :
    (∀ parent child k,
        List.lookup k (((mergeParentAllOfInChild parent child).2).properties.getD []) =
          orO (List.lookup k (child.properties.getD []))
            (List.lookup k (parent.properties.getD [])))
    ∧ (∀ parent child r,
        r ∈ ((mergeParentAllOfInChild parent child).2).required.getD [] ↔
          (r ∈ parent.required.getD [] ∨ r ∈ child.required.getD []))
    ∧ (∀ parent child, parent.xMsAzureResource = true →
        ((mergeParentAllOfInChild parent child).2).xMsAzureResource = true)
    ∧ ((resolveAllOfInDefinitions 10 scenarioDefsPC).map (fun d =>
         (List.lookup "C" d).map (fun c =>
           ((List.lookup "id" (c.properties.getD [])).isSome,
            (List.lookup "name" (c.properties.getD [])).isSome,
            c.required))) = some (some (true, true, some ["id", "name"]))) := by
  refine ⟨?_, ?_, ?_, rfl⟩
  · intro parent child k
    rw [merge_child_properties]
    simp only [Option.getD_some]
    exact lookup_overrideMerge (parent.properties.getD []) (child.properties.getD []) k
  · intro parent child r
    rw [merge_child_required]
    cases hr : parent.required with
    | none => simp
    | some pr =>
      simp only [Option.getD_some]
      rw [mem_dedupList]
      simp
  · intro parent child h
    rw [merge_child_azure, h]
    rfl

/-- Witness for C2 at the concrete scenario definitions, including the
marker-propagation hypothesis discharged on a marked parent. -/
theorem c2_witness :
    List.lookup "id" (((mergeParentAllOfInChild defP defC).2).properties.getD []) =
      some strSch ∧
    ("id" ∈ ((mergeParentAllOfInChild defP defC).2).required.getD [] ∧
     "name" ∈ ((mergeParentAllOfInChild defP defC).2).required.getD []) ∧
    ((mergeParentAllOfInChild (defP.setXMsAzureResource true) defC).2).xMsAzureResource = true := by
  refine ⟨?_, ⟨?_, ?_⟩, ?_⟩
  · rw [c2_composition_flattening.1 defP defC "id"]
    rfl
  · exact (c2_composition_flattening.2.1 defP defC "id").mpr (Or.inl (by simp [defP, Sch.required, Sch.data]))
  · exact (c2_composition_flattening.2.1 defP defC "name").mpr (Or.inr (by simp [defC, Sch.required, Sch.data]))
  · exact c2_composition_flattening.2.2.1 (defP.setXMsAzureResource true) defC rfl




/-- C3: a schema whose reference is already in the visited set makes the
generator return undefined immediately, with the visited set, mock cache
and warning count untouched (so nothing is cached for that outcome); and
the self-referential `Node` run terminates with the cyclic property
present in the produced trunk item and its value undefined. -/
theorem c3_cycle_break :
    (∀ env fuel objName sch r ex visited st isReq dv,
        sch.ref = some r → visited.contains r = true →
        mockCachedObj env (fuel + 1) objName (some sch) ex visited st isReq dv =
          some (.undefV, visited, st))
    ∧ nodeRun = some (nodeItem, [], ⟨[("/definitions/Node", nodeItem)], 0⟩) := by
  constructor
  · intro env fuel objName sch r ex visited st isReq dv href hvis
    simp only [mockCachedObj, href, hvis, if_true]
  · rfl

/-- Witness for C3 at a concrete visited set containing the reference. -/
theorem c3_witness :
    mockCachedObj nodeEnv 5 "x" (some (refSch "#/definitions/Node")) .undefV
      ["#/definitions/Node"] st0 false none = some (.undefV, ["#/definitions/Node"], st0) :=
  c3_cycle_break.1 nodeEnv 4 "x" (refSch "#/definitions/Node") "#/definitions/Node" .undefV
    ["#/definitions/Node"] st0 false none rfl rfl

/-- C7 (amended part): a malformed (absent or non-object) leaf schema makes
the generator log one warning and return undefined without touching the
mock cache or the visited set. -/
theorem c7_amended_malformed_leaf :
    ∀ env fuel objName ex visited st isReq dv,
      mockCachedObj env (fuel + 1) objName none ex visited st isReq dv =
        some (.undefV, visited, ⟨st.mockCache, st.warnings + 1⟩) := by
  intro env fuel objName ex visited st isReq dv
  rfl

/-- C4: the cache probe consults the payload cache before the mock cache
and returns the found item verbatim; a cache hit short-circuits the whole
generation call with cache state untouched; and on the `Node` fixture the
second occurrence of the reference returns exactly the item produced and
cached by the first. -/
theorem c4_cache_probe_order :
    (∀ env st sch r k v, sch.ref = some r → refKey r = some k →
        List.lookup k env.payload = some v → getCache env st sch = some v)
    ∧ (∀ env st sch r k w, sch.ref = some r → refKey r = some k →
        List.lookup k env.payload = none → List.lookup k st.mockCache = some w →
        getCache env st sch = some w)
    ∧ (∀ env fuel objName sch r c ex visited st isReq dv,
        sch.ref = some r → visited.contains r = false → getCache env st sch = some c →
        mockCachedObj env (fuel + 1) objName (some sch) ex visited st isReq dv =
          some (c, visited, st))
    ∧ (mockCachedObj nodeEnv 10 "a" (some (refSch "#/definitions/Node")) .undefV [] st0
         false none = some (nodeItem, [], ⟨[("/definitions/Node", nodeItem)], 0⟩)
       ∧ mockCachedObj nodeEnv 10 "b" (some (refSch "#/definitions/Node")) .undefV []
           ⟨[("/definitions/Node", nodeItem)], 0⟩ false none =
         some (nodeItem, [], ⟨[("/definitions/Node", nodeItem)], 0⟩)) := by
  refine ⟨?_, ?_, ?_, rfl, rfl⟩
  · intro env st sch r k v href hkey hp
    simp only [getCache, href, hkey, hp]
  · intro env st sch r k w href hkey hp hm
    simp only [getCache, href, hkey, hp, hm]
  · intro env fuel objName sch r c ex visited st isReq dv href hvis hc
    simp only [mockCachedObj, href, hvis, Bool.false_eq_true, if_false, hc]

/-- Witness for C4: with both caches populated for `Node`, the payload item
wins and the generation call returns it verbatim. -/
theorem c4_witness :
    getCache payloadEnv ⟨[("/definitions/Node", nodeItem)], 0⟩ (refSch "#/definitions/Node") =
      some payloadItem ∧
    mockCachedObj payloadEnv 8 "x" (some (refSch "#/definitions/Node")) .undefV []
      ⟨[("/definitions/Node", nodeItem)], 3⟩ false none =
      some (payloadItem, [], ⟨[("/definitions/Node", nodeItem)], 3⟩) := by
  constructor
  · exact c4_cache_probe_order.1 payloadEnv ⟨[("/definitions/Node", nodeItem)], 0⟩
      (refSch "#/definitions/Node") "#/definitions/Node" "/definitions/Node" payloadItem
      rfl rfl rfl
  · exact c4_cache_probe_order.2.2.1 payloadEnv 7 "x" (refSch "#/definitions/Node")
      "#/definitions/Node" payloadItem .undefV [] ⟨[("/definitions/Node", nodeItem)], 3⟩
      false none rfl rfl
      (c4_cache_probe_order.1 payloadEnv ⟨[("/definitions/Node", nodeItem)], 3⟩
        (refSch "#/definitions/Node") "#/definitions/Node" "/definitions/Node" payloadItem
        rfl rfl rfl)




theorem getDefSpecM_cycB (v : List String) :
    getDefSpecM cycEnv (refSch "#/definitions/B") v =
      some (cycBSch, addVisited (refSch "#/definitions/B") v) := rfl

theorem getDefSpecM_cycA (v : List String) :
    getDefSpecM cycEnv (refSch "#/definitions/A") v =
      some (cycASch, addVisited (refSch "#/definitions/A") v) := rfl

theorem cycA_allOf : cycASch.allOf = some [refSch "#/definitions/B"] := rfl

theorem cycB_allOf : cycBSch.allOf = some [refSch "#/definitions/A"] := rfl

theorem cyc_getProperties_none :
    ∀ m v, getProperties cycEnv m cycASch v = none ∧ getProperties cycEnv m cycBSch v = none := by
  intro m
  induction m using Nat.strong_induction_on with
  | _ m ih =>
    intro v
    match m with
    | 0 => exact ⟨rfl, rfl⟩
    | 1 => exact ⟨rfl, rfl⟩
    | (k + 2) =>
      constructor
      · have hB := (ih k (by omega) (addVisited (refSch "#/definitions/B") v)).2
        simp only [getProperties, getPropsList, cycA_allOf, Option.getD_some,
          getDefSpecM_cycB, hB]
      · have hA := (ih k (by omega) (addVisited (refSch "#/definitions/A") v)).1
        simp only [getProperties, getPropsList, cycB_allOf, Option.getD_some,
          getDefSpecM_cycA, hA]




theorem ref_refSch (r : String) : (refSch r).ref = some r := rfl

theorem contains_nil_str (r : String) : List.contains ([] : List String) r = false := rfl

theorem getCache_cycA : getCache cycEnv st0 (refSch "#/definitions/A") = none := rfl

theorem addVis_cycA : addVisited (refSch "#/definitions/A") [] = ["#/definitions/A"] := rfl

theorem isObject_cycA : isObject cycASch = true := rfl

/-- C7 counterexample: on a document with circular composition (`A` allOf
`B`, `B` allOf `A`) the generation call never returns for any amount of
fuel — the source's property collection recurses forever (its own comment
reads "circular inherit will not be handled"), contradicting the claim
that a generation call always produces a (possibly partial) result. -/
theorem c7_counterexample :
    ¬ ∃ fuel, (mockCachedObj cycEnv fuel "A" (some (refSch "#/definitions/A")) .undefV [] st0
        false none).isSome = true := by
  rintro ⟨fuel, h⟩
  match fuel with
  | 0 => exact absurd h (by decide)
  | n + 1 =>
    have hp := (cyc_getProperties_none n ["#/definitions/A"]).1
    unfold mockCachedObj at h
    simp only [ref_refSch, contains_nil_str, Bool.false_eq_true, if_false, getCache_cycA,
      getDefSpecM_cycA, addVis_cycA, isObject_cycA, if_true, hp, Option.isSome_none] at h




theorem properties_setType (s : Sch) (v : Option String) :
    (s.setType v).properties = s.properties := rfl

theorem enum_setEnum (s : Sch) (v : Option (List String)) : (s.setEnum v).enum = v := rfl

theorem enum_setType (s : Sch) (v : Option String) : (s.setType v).enum = s.enum := rfl

theorem enum_setRef (s : Sch) (v : Option String) : (s.setRef v).enum = s.enum := rfl

theorem enum_setXMsEnumModelAsString (s : Sch) (v : Option Bool) :
    (s.setXMsEnumModelAsString v).enum = s.enum := rfl

theorem type_setXMsEnumModelAsString (s : Sch) (v : Option Bool) :
    (s.setXMsEnumModelAsString v).type = s.type := rfl

theorem discriminator_setType (s : Sch) (v : Option String) :
    (s.setType v).discriminator = s.discriminator := rfl

theorem discriminator_setRequired (s : Sch) (v : Option (List String)) :
    (s.setRequired v).discriminator = s.discriminator := rfl

theorem wireName_setType (s : Sch) (v : Option String) (nm : String) :
    wireName (s.setType v) nm = wireName s nm := rfl

theorem wireName_setRequired (s : Sch) (v : Option (List String)) (nm : String) :
    wireName (s.setRequired v) nm = wireName s nm := rfl

/-- C5 (amended): during discriminator pinning, for a node whose definition
declares the discriminator property without a nested reference: when the
definition does not itself declare a discriminator (every subtype node),
an already-present enum is overwritten by the single wire-name; when the
definition itself declares the discriminator (the base model), the
wire-name is prepended to an already-present enum not containing it; and
when no enum is present, the enum becomes the single wire-name. -/
theorem c5_amended_enum_pinning :
    (∀ defs nm disc definition ps d l,
       List.lookup nm defs = some definition →
       definition.properties = some ps →
       List.lookup disc ps = some d →
       isTruthyStrOpt definition.discriminator = false →
       isTruthyStrOpt d.ref = false →
       d.enum = some l →
       discriminatorEnumOf (pinDiscriminatorInDefinition defs nm disc) nm disc =
         some (some [wireName definition nm]))
    ∧ (∀ defs nm disc definition ps d l,
       List.lookup nm defs = some definition →
       definition.properties = some ps →
       List.lookup disc ps = some d →
       isTruthyStrOpt definition.discriminator = true →
       isTruthyStrOpt d.ref = false →
       d.enum = some l →
       l.contains (wireName definition nm) = false →
       discriminatorEnumOf (pinDiscriminatorInDefinition defs nm disc) nm disc =
         some (some (wireName definition nm :: l)))
    ∧ (∀ defs nm disc definition ps d,
       List.lookup nm defs = some definition →
       definition.properties = some ps →
       List.lookup disc ps = some d →
       isTruthyStrOpt d.ref = false →
       d.enum = none →
       discriminatorEnumOf (pinDiscriminatorInDefinition defs nm disc) nm disc =
         some (some [wireName definition nm])) := by
  refine ⟨?_, ?_, ?_⟩
  · intro defs nm disc definition ps d l h1 h2 h3 h4 h5 h6
    simp only [pinDiscriminatorInDefinition, h1, h2, h3, h5, Bool.false_eq_true, if_false]
    cases hx : d.xMsEnumModelAsString <;> cases ht : isTruthyStrOpt d.type <;> split <;>
      (try split) <;>
      simp_all [discriminatorEnumOf, lookup_assocSet_self, properties_setProperties,
        properties_setRequired, properties_setType, discriminator_setType,
        discriminator_setRequired, enum_setEnum, enum_setType, enum_setXMsEnumModelAsString,
        type_setXMsEnumModelAsString, wireName_setType, wireName_setRequired]
  · intro defs nm disc definition ps d l h1 h2 h3 h4 h5 h6 h7
    simp only [pinDiscriminatorInDefinition, h1, h2, h3, h5, Bool.false_eq_true, if_false]
    cases hx : d.xMsEnumModelAsString <;> cases ht : isTruthyStrOpt d.type <;> split <;>
      (try split) <;>
      simp_all [discriminatorEnumOf, lookup_assocSet_self, properties_setProperties,
        properties_setRequired, properties_setType, discriminator_setType,
        discriminator_setRequired, enum_setEnum, enum_setType, enum_setXMsEnumModelAsString,
        type_setXMsEnumModelAsString, wireName_setType, wireName_setRequired]
  · intro defs nm disc definition ps d h1 h2 h3 h5 h6
    simp only [pinDiscriminatorInDefinition, h1, h2, h3, h5, Bool.false_eq_true, if_false]
    cases hx : d.xMsEnumModelAsString <;> cases ht : isTruthyStrOpt d.type <;> split <;>
      (try split) <;>
      simp_all [discriminatorEnumOf, lookup_assocSet_self, properties_setProperties,
        properties_setRequired, properties_setType, discriminator_setType,
        discriminator_setRequired, enum_setEnum, enum_setType, enum_setXMsEnumModelAsString,
        type_setXMsEnumModelAsString, wireName_setType, wireName_setRequired]




set_option maxHeartbeats 2000000 in
/-- C5 counterexample: subtype `Cat` enters tree construction with an
already-present enum `["Feline"]` on its discriminator property and no own
`discriminator` field; after construction the enum is `["Cat"]` — the
pre-existing enum was overwritten, not merged, contradicting the claim
that an already-present enum is always merged with the wire-name. -/
theorem c5_counterexample :
    catKindSch.enum = some ["Feline"] ∧
    catDef.discriminator = none ∧
    (animalTreeRun.map (fun r => (List.lookup "Cat" r.2.defs).map (fun c =>
        (List.lookup "kind" (c.properties.getD [])).map Sch.enum))) =
      some (some (some (some ["Cat"]))) := ⟨rfl, rfl, rfl⟩

/-- Witness for the C5 amended theorem: pinning `Cat` directly exhibits the
subtype overwrite. -/
theorem c5_witness :
    discriminatorEnumOf (pinDiscriminatorInDefinition scenarioDefsAnimal "Cat" "kind")
      "Cat" "kind" = some (some ["Cat"]) := by
  have h := c5_amended_enum_pinning.1 scenarioDefsAnimal "Cat" "kind" catDef
    [("kind", catKindSch)] catKindSch ["Feline"] rfl rfl rfl rfl rfl rfl
  exact h

set_option maxHeartbeats 4000000 in
/-- C6 (amended): the memo map receives a node only after all its children
have been recursively built (for every successful run the root is found in
the memo keyed by its name, inserted as the final step), the memo is never
consulted during construction, and a descendant shared by two parents is
rebuilt once per parent: on the diamond (`B` and `C` compose `A`; `D`
composes both `B` and `C`) construction succeeds, enters `D` twice (trace
`[A, B, D, C, D]`), and the memo insertion order is `[D, B, C, A]` — each
parent after its children. -/
theorem c6_amended_memo_after_recursion :
    (∀ fuel nm disc st,
       ((createPolymorphicTree fuel nm disc st).map (fun r => List.lookup nm r.2.subTreeMap)) =
         ((createPolymorphicTree fuel nm disc st).map (fun r => some r.1)))
    ∧ (diamondRun.map (fun r => (r.2.trace, r.2.subTreeMap.map Prod.fst))) =
        some (["A", "B", "D", "C", "D"], ["D", "B", "C", "A"]) := by
  refine ⟨?_, rfl⟩
  intro fuel nm disc st
  match fuel with
  | 0 => rfl
  | n + 1 =>
    unfold createPolymorphicTree
    split
    · rfl
    · dsimp only
      split
      · rfl
      · simp [lookup_assocSet_self]

set_option maxHeartbeats 4000000 in
/-- C6 counterexample: in the diamond fixture the construction trace is
`[A, B, D, C, D]` — the tree for `D` is built twice within a single
resolution pass, contradicting the claim that memoization prevents any
model's tree from being built more than once. -/
theorem c6_counterexample :
    (diamondRun.map (fun r => (r.2.trace, r.2.trace.count "D"))) =
      some (["A", "B", "D", "C", "D"], 2) := rfl




theorem lookup_backfillLoop (cond : String → Bool) (s : String) :
    ∀ (statuses : List String) (acc : List (String × CVal)),
      List.lookup s (backfillLoop cond acc statuses) =
        (if (statuses.contains s && cond s) = true then some (.jobj [])
         else List.lookup s acc) := by
  intro statuses
  induction statuses with
  | nil => intro acc; simp [backfillLoop]
  | cons t rest ih =>
    intro acc
    have hstep : backfillLoop cond acc (t :: rest) =
        backfillLoop cond (if cond t then assocSet acc t (.jobj []) else acc) rest := by
      simp only [backfillLoop, List.foldl_cons]
    rw [hstep, ih]
    by_cases hst : s = t
    · subst hst
      cases hc : cond s with
      | true =>
        simp only [hc, if_pos]
        simp [lookup_assocSet_self, List.contains_cons]
      | false => simp [hc]
    · have hbe : (s == t) = false := by simpa [beq_eq_false_iff_ne] using hst
      cases hc : cond t with
      | true =>
        simp only [hc, if_pos]
        rw [lookup_assocSet_other acc t s (.jobj []) hst]
        simp [List.contains_cons, hbe, hst]
      | false =>
        simp only [hc, Bool.false_eq_true, if_false]
        simp [List.contains_cons, hbe, hst]

/-- C8 (amended): response-slot back-fill characterization — a declared
status other than default (and other than a pre-handled success code when
the supplied example is non-empty) always has its slot set to the empty
object, even when the supplied example already carried content for it;
every other slot keeps the supplied content. -/
theorem c8_amended_backfill :
    ∀ (responses : List (String × CVal)) (specStatuses : List String) (s : String),
      List.lookup s (mockForExampleBackfill responses specStatuses) =
        (if (specStatuses.contains s && (s != "default") &&
             (responses.isEmpty || !(preHandledStatusCode.contains s))) = true
         then some (.jobj [])
         else List.lookup s responses) := by
  intro responses specStatuses s
  rw [mockForExampleBackfill]
  cases hre : responses.isEmpty with
  | true =>
    simp only [if_pos]
    rw [lookup_backfillLoop]
    have hnil : responses = [] := by
      cases responses with
      | nil => rfl
      | cons a l => simp [List.isEmpty] at hre
    subst hnil
    simp
  | false =>
    simp only [Bool.false_eq_true, if_false]
    rw [lookup_backfillLoop]
    simp only [hre, Bool.false_or]
    rcases Bool.eq_false_or_eq_true (specStatuses.contains s) with hc | hc <;>
      rcases Bool.eq_false_or_eq_true (s != "default") with hd | hd <;>
        rcases Bool.eq_false_or_eq_true (preHandledStatusCode.contains s) with hp | hp <;>
          simp [hc, hd, hp]

/-- C8 counterexample: a supplied example already containing a `404`
response slot with content has that slot reset to the empty object by the
back-fill loop, contradicting the claim that only missing status slots are
back-filled and present slots keep their content. -/
theorem c8_counterexample :
    List.lookup "404" (mockForExampleBackfill [("404", .jobj [("body", .str "x")])] ["404"]) =
      some (.jobj []) ∧ CVal.jobj [] ≠ CVal.jobj [("body", .str "x")] := by
  refine ⟨rfl, ?_⟩
  simp




/-- C9 (amended): in the parameter loop, a plain (schema-less, non-special)
parameter whose value is already supplied is skipped and the example is
unchanged; but `resourceGroupName` is always overwritten with the
caller-scoped `rg` value, `api-version` is always overwritten with the
document version, and a body parameter is always regenerated (seeded with
the supplied value, defaulted to an empty object). -/
theorem c9_amended_parameter_loop :
    (∀ env fn validator rp ver ex element paramEle visited,
        getDefSpecM env element [] = some (paramEle, visited) →
        paramEle.name = some "resourceGroupName" →
        processParam env fn validator rp ver ex element =
          some (assocSet ex "resourceGroupName" (.str ("rg" ++ rp))))
    ∧ (∀ env fn validator rp ver ex element paramEle visited,
        getDefSpecM env element [] = some (paramEle, visited) →
        paramEle.name = some "api-version" →
        processParam env fn validator rp ver ex element =
          some (assocSet ex "api-version" (.str ver)))
    ∧ (∀ env fn validator rp ver ex element paramEle visited nm,
        getDefSpecM env element [] = some (paramEle, visited) →
        paramEle.name = some nm →
        nm ≠ "resourceGroupName" → nm ≠ "api-version" →
        paramEle.schemaF = none →
        (ex.map Prod.fst).contains nm = true →
        processParam env fn validator rp ver ex element = some ex)
    ∧ (∀ env fn validator rp ver ex element paramEle visited nm psch,
        getDefSpecM env element [] = some (paramEle, visited) →
        paramEle.name = some nm →
        nm ≠ "resourceGroupName" → nm ≠ "api-version" →
        paramEle.schemaF = some psch →
        validatorOk validator paramEle = true →
        processParam env fn validator rp ver ex element =
          some (assocSet ex nm (fn nm psch
            (if ((List.lookup nm ex).getD .undefV).jsTruthy then
              (List.lookup nm ex).getD .undefV
            else .jobj []) visited true))) := by
  refine ⟨?_, ?_, ?_, ?_⟩
  · intro env fn validator rp ver ex element paramEle visited hget hname
    simp only [processParam, hget, hname, if_pos]
  · intro env fn validator rp ver ex element paramEle visited hget hname
    simp [processParam, hget, hname]
  · intro env fn validator rp ver ex element paramEle visited nm hget hname h1 h2 hsch hmem
    simp [processParam, hget, hname, h1, h2, hsch, hmem]
    intro hno hval
    have hm : nm ∈ List.map Prod.fst ex := by simpa using hmem
    rcases List.mem_map.mp hm with ⟨e, he, hfst⟩
    have hpair : (nm, e.2) ∈ ex := by rw [← hfst]; exact he
    exact absurd hpair (hno e.2)
  · intro env fn validator rp ver ex element paramEle visited nm psch hget hname h1 h2 hsch hval
    simp [processParam, hget, hname, h1, h2, hsch, hval]

/-- C9 counterexample: a `resourceGroupName` parameter whose value `mine`
is already present in the supplied example is overwritten with the
caller-scoped synthetic value `rgFoo`, contradicting the claim that every
parameter with a supplied value is skipped and left unchanged. -/
theorem c9_counterexample :
    mockRequest nodeEnv constMockObjFn none "Foo" "2020-01-01"
      [("resourceGroupName", .str "mine")] [rgParamSch] =
      some [("resourceGroupName", .str "rgFoo")] ∧
    CVal.str "rgFoo" ≠ CVal.str "mine" := by
  refine ⟨rfl, ?_⟩
  simp

/-- Witness for C9: a plain parameter `top` with a supplied value is
skipped and the example is returned unchanged. -/
theorem c9_witness :
    processParam nodeEnv constMockObjFn none "Foo" "2020-01-01" [("top", .str "mine")]
      plainParamSch = some [("top", .str "mine")] :=
  c9_amended_parameter_loop.2.2.1 nodeEnv constMockObjFn none "Foo" "2020-01-01"
    [("top", .str "mine")] plainParamSch plainParamSch [] "top" rfl rfl
    (by decide) (by decide) rfl rfl

/-- C10: discriminator branch selection recurses on the chosen concrete
subtype with an empty-object seed and a fresh visited set, so its outcome
is independent of the caller-supplied example for the polymorphic value:
the result (and resulting cache state) is exactly that of the recursive
generation call on the subtype with the empty seed, the base object's
reference removed from the caller's visited set on the way out. -/
theorem c10_discriminator_fresh_seed :
    ∀ env fuel sch ex ex2 disc isReq visited st disDetail v1 dmap props v0 dv subSpec,
      getDefSpecM env sch visited = some (disDetail, v1) →
      disDetail.discriminatorMap = some dmap →
      dmap.isEmpty = false →
      getProperties env fuel disDetail [] = some (props, v0) →
      (match List.lookup disc props with
       | some p =>
         (match p.enum with
          | some l => l.get? 0
          | none => (dmap.get? 0).map Prod.fst)
       | none => (dmap.get? 0).map Prod.fst) = some dv →
      List.lookup dv dmap = some subSpec →
      (mockForDiscriminator env (fuel + 1) sch ex disc isReq visited st =
          mockForDiscriminator env (fuel + 1) sch ex2 disc isReq visited st
       ∧ (mockCachedObj env fuel disc (some subSpec) (.jobj []) [] st isReq (some dv) = none →
           mockForDiscriminator env (fuel + 1) sch ex disc isReq visited st = none)
       ∧ (∀ c vv s1,
           mockCachedObj env fuel disc (some subSpec) (.jobj []) [] st isReq (some dv) =
             some (c, vv, s1) →
           mockForDiscriminator env (fuel + 1) sch ex disc isReq visited st =
             some (if c.jsTruthy then c else .undefV, removeFromSet sch v1, s1))) := by
  intro env fuel sch ex ex2 disc isReq visited st disDetail v1 dmap props v0 dv subSpec
  intro hget hmap hne hprops hdv hsub
  refine ⟨?_, ?_, ?_⟩
  · simp only [mockForDiscriminator, hget, hmap, hne, Bool.false_eq_true, if_false, hprops,
      hdv, hsub]
  · intro h
    simp only [mockForDiscriminator, hget, hmap, hne, Bool.false_eq_true, if_false, hprops,
      hdv, hsub, h]
  · intro c vv s1 h
    simp only [mockForDiscriminator, hget, hmap, hne, Bool.false_eq_true, if_false, hprops,
      hdv, hsub, h]

/-- Witness for C10: on the polymorphic fixture two different seeds give
the same branch-selection result. -/
theorem c10_witness :
    mockForDiscriminator polyEnv 11 polyBaseSch (.jobj [("kind", .str "seeded")]) "kind"
      false [] st0 =
    mockForDiscriminator polyEnv 11 polyBaseSch (.jobj []) "kind" false [] st0 :=
  (c10_discriminator_fresh_seed polyEnv 10 polyBaseSch (.jobj [("kind", .str "seeded")])
    (.jobj []) "kind" false [] st0 polyBaseSch [] [("Cat", refSch "#/definitions/CatSub")]
    [("kind", strSch)] [] "Cat" (refSch "#/definitions/CatSub")
    rfl rfl rfl rfl rfl rfl).1


end OAV
